import Mathlib

/-!
# Verification of the dulwich-py3k git client and index codec

Shallow embedding of `dulwich/client.py` and `dulwich/index.py`
(report-status parsing, push/fetch negotiation, the binary index codec and
the tree builder), together with theorems settling the specification claims.

Python byte strings are modelled as `List Nat` (one `Nat` per byte); Python
text strings as `List Nat` of Unicode code points.  Fallible operations
return `Except GErr`.
-/

/-- A Python byte string: a list of byte values. -/
abbrev Bytes := List Nat

/-- Code points of an ASCII string literal (for ASCII text these coincide
with the UTF-8 bytes). -/
def ascii (s : String) : Bytes := s.data.map Char.toNat

/-- The bytes stripped by Python `bytes.strip()`: space, tab, newline,
carriage return, vertical tab, form feed. -/
def isPySpace (b : Nat) : Bool :=
  b == 32 || b == 9 || b == 10 || b == 13 || b == 11 || b == 12

/-- Python `bytes.lstrip()`. -/
def lstripPy (l : Bytes) : Bytes := l.dropWhile isPySpace

/-- Python `bytes.rstrip()`. -/
def rstripPy (l : Bytes) : Bytes := (l.reverse.dropWhile isPySpace).reverse

/-- Python `bytes.strip()`. -/
def pyStrip (l : Bytes) : Bytes := rstripPy (lstripPy l)

/-- Python `bytes.rstrip(b'\n')`. -/
def rstripNl (l : Bytes) : Bytes := (l.reverse.dropWhile (· == 10)).reverse

/-- Python `b' ' in s`. -/
def hasSpace (l : Bytes) : Bool := l.contains 32

/-- Python `s.split(b' ', 1)` under the guard that a space is present:
the part before the first space byte and the part after it. -/
def splitFirstSpace : Bytes → Bytes × Bytes
  | [] => ([], [])
  | b :: rest =>
    if b == 32 then ([], rest)
    else
      let r := splitFirstSpace rest
      (b :: r.1, r.2)

/-- Python `s.split(b' ')`: split on every space byte, keeping empty
fields (`b''.split(b' ') == [b'']`). -/
def splitSp : Bytes → List Bytes
  | [] => [[]]
  | b :: rest =>
    if b == 32 then [] :: splitSp rest
    else
      match splitSp rest with
      | [] => [[b]]
      | h :: t => (b :: h) :: t

/-- Lookup in a Python dict modelled as an association list. -/
def alGet {α : Type} (m : List (Bytes × α)) (k : Bytes) : Option α :=
  (m.find? (fun p => p.1 == k)).map (·.2)

/-- Python dict assignment `m[k] = v`: overwrite in place if the key is
present (dicts keep first-insertion position), else append. -/
def alSet {α : Type} (m : List (Bytes × α)) (k : Bytes) (v : α) :
    List (Bytes × α) :=
  match m with
  | [] => [(k, v)]
  | (k', v') :: rest =>
    if k' == k then (k, v) :: rest else (k', v') :: alSet rest k v

/-- Errors raised by the modelled code (exceptions of `client.py` /
`index.py` plus the Python runtime errors its slips can raise). -/
inductive GErr where
  /-- `GitProtocolError` -/
  | gitProtocolError (msg : Bytes)
  /-- `SendPackError` (payload: the server's unpack status, or raw data) -/
  | sendPackError (msg : Option Bytes)
  /-- `UpdateRefsError`: the refs named in the message and the
  `ref_status` mapping attached to the exception. -/
  | updateRefsError (failing : List Bytes) (refStatus : List (Bytes × Bytes))
  /-- `NotGitRepository` -/
  | notGitRepository
  /-- `NotImplementedError` -/
  | notImplemented
  /-- `TypeError` (e.g. `in` on `None`) -/
  | typeError
  /-- `IndexError` (sequence index out of range) -/
  | indexError
  /-- `AssertionError` -/
  | assertionError (msg : Bytes)
  /-- `ValueError` (failed tuple unpacking / int parsing) -/
  | valueError
  /-- `struct.error` (value out of range for the format) -/
  | structError
  /-- `UnicodeDecodeError` (invalid UTF-8) -/
  | unicodeDecodeError
  /-- bare `Exception('Unexpected response %r')` in the upload-pack tail -/
  | unexpectedResponse (data : Bytes)
  /-- `AttributeError` (attribute missing, e.g. `self.read` on `GitClient`) -/
  | attributeError
  /-- read past end of stream (blocking read that can never return) -/
  | eofError
deriving DecidableEq

/-! ## ReportStatusParser (client.py lines 67-122) -/

/-- State of `ReportStatusParser`: `_done`, `_pack_status`,
`_ref_status_ok`, `_ref_statuses`. -/
structure RSParser where
  done : Bool
  packStatus : Option Bytes
  refStatusOk : Bool
  refStatuses : List Bytes
deriving DecidableEq

/-- `ReportStatusParser.__init__`. -/
def RSParser.mkInit : RSParser :=
  { done := false, packStatus := none, refStatusOk := true, refStatuses := [] }

/-- `ReportStatusParser.handle_packet` (a `None` packet is the flush). -/
def RSParser.handlePacket (p : RSParser) (pkt : Option Bytes) :
    Except GErr RSParser :=
  if p.done then
    .error (.gitProtocolError (ascii "received more data after status report"))
  else
    match pkt with
    | none => .ok { p with done := true }
    | some data =>
      match p.packStatus with
      | none => .ok { p with packStatus := some (pyStrip data) }
      | some _ =>
        let refStatus := pyStrip data
        .ok { p with
              refStatuses := p.refStatuses ++ [refStatus],
              refStatusOk :=
                p.refStatusOk && (ascii "ok ").isPrefixOf refStatus }

/-- One iteration of the loop in `ReportStatusParser.check`: accumulate
the `ref_status` dict and the `ok` set from one recorded status line. -/
def checkFold (acc : List (Bytes × Bytes) × List Bytes) (status : Bytes) :
    List (Bytes × Bytes) × List Bytes :=
  if hasSpace status then
    let s1 := splitFirstSpace status
    if s1.1 == ascii "ng" then
      if hasSpace s1.2 then
        let s2 := splitFirstSpace s1.2
        (alSet acc.1 s2.1 s2.2, acc.2)
      else
        (alSet acc.1 s1.2 s1.1, acc.2)
    else
      (alSet acc.1 s1.2 s1.1,
       if acc.2.contains s1.2 then acc.2 else acc.2 ++ [s1.2])
  else
    acc

/-- `ReportStatusParser.check`. -/
def RSParser.check (p : RSParser) : Except GErr Unit :=
  if p.packStatus ≠ some (ascii "unpack ok") ∧ p.packStatus ≠ none then
    .error (.sendPackError p.packStatus)
  else if p.refStatusOk then
    .ok ()
  else
    let acc := p.refStatuses.foldl checkFold ([], [])
    .error (.updateRefsError
      ((acc.1.map Prod.fst).filter (fun r => !(acc.2.contains r)))
      acc.1)

/-- Feed a sequence of packets to a fresh `ReportStatusParser`. -/
def runPackets (pkts : List (Option Bytes)) : Except GErr RSParser :=
  pkts.foldlM RSParser.handlePacket RSParser.mkInit

/-- Feed a sequence of packets to a fresh parser, then call `check()`. -/
def checkAfter (pkts : List (Option Bytes)) : Except GErr Unit :=
  (runPackets pkts).bind RSParser.check

/-- A well-formed ref-status line as described by the spec: `ok <ref>` or
`ng <ref> <reason>`. -/
inductive RefLine where
  | okL (r : Bytes)
  | ngL (r reason : Bytes)

/-- The wire form of a ref-status line. -/
def renderRefLine : RefLine → Bytes
  | .okL r => ascii "ok " ++ r
  | .ngL r s => ascii "ng " ++ r ++ [32] ++ s

/-- The ref a ref-status line talks about. -/
def refOf : RefLine → Bytes
  | .okL r => r
  | .ngL r _ => r

/-- The (ref, status) pair that `check()` records for a line: `ok` refs map
to the status token `ok`, `ng` refs map to their reason. -/
def pairOf : RefLine → Bytes × Bytes
  | .okL r => (r, ascii "ok")
  | .ngL r s => (r, s)

/-- Whether a line reports a failed ref update. -/
def isNgLine : RefLine → Bool
  | .okL _ => false
  | .ngL _ _ => true

/-- The refs of the `ng` lines, in order. -/
def ngRefs (ls : List RefLine) : List Bytes :=
  ls.filterMap (fun l => match l with | .ngL r _ => some r | _ => none)

/-- Side conditions making a ref-status line survive `strip()` and the
space-splits unchanged: nonempty ref without space bytes, and (for `ng`)
a nonempty reason not ending in whitespace. -/
def wfRefLine : RefLine → Bool
  | .okL r => !r.isEmpty && !(r.contains 32) && !isPySpace (r.getLastD 0)
  | .ngL r s =>
      !r.isEmpty && !(r.contains 32) && !s.isEmpty && !isPySpace (s.getLastD 0)

/-! ## Index codec (index.py lines 60-164)

Byte-level model of the binary staging-area format.  A file is a `Bytes`
value; reads are modelled by an explicit position, `f.read(n)` returning up
to `n` bytes (short at end of file, like Python). -/

/-- `f.read(n)` starting at `pos`. -/
def readBytes (data : Bytes) (pos n : Nat) : Bytes := (data.drop pos).take n

/-- Big-endian 4-byte encoding of a 32-bit value (struct format `>L`);
`struct.pack` raises `struct.error` when the value is out of range. -/
def pack32 (n : Nat) : Except GErr Bytes :=
  if n < 4294967296 then
    .ok [n / 16777216 % 256, n / 65536 % 256, n / 256 % 256, n % 256]
  else .error .structError

/-- Big-endian 2-byte encoding of a 16-bit value (struct format `>H`). -/
def pack16 (n : Nat) : Except GErr Bytes :=
  if n < 65536 then .ok [n / 256 % 256, n % 256] else .error .structError

/-- struct format `20s`: pad with NULs / truncate to exactly 20 bytes. -/
def pack20s (s : Bytes) : Bytes := s.take 20 ++ List.replicate (20 - s.length) 0

/-- Big-endian value of 4 bytes (struct format `>L`, decoding). -/
def unpack32 (b0 b1 b2 b3 : Nat) : Nat :=
  ((b0 * 256 + b1) * 256 + b2) * 256 + b3

/-- `x & ~7` of Python on a nonnegative int: clear the low 3 bits. -/
def alignDown8 (x : Nat) : Nat := x - x % 8

/-- UTF-8 encoding of one code point (`str.encode('utf-8')`, per char). -/
def utf8EncodeChar (c : Nat) : Bytes :=
  if c < 128 then [c]
  else if c < 2048 then [192 + c / 64, 128 + c % 64]
  else if c < 65536 then [224 + c / 4096, 128 + c / 64 % 64, 128 + c % 64]
  else [240 + c / 262144, 128 + c / 4096 % 64, 128 + c / 64 % 64, 128 + c % 64]

/-- UTF-8 encoding of a text string (list of code points). -/
def utf8Encode (s : List Nat) : Bytes := (s.map utf8EncodeChar).flatten

/-- Whether a byte is a UTF-8 continuation byte. -/
def isCont (b : Nat) : Bool := 128 ≤ b && b < 192

/-- One code point of strict UTF-8 decoding: given the lead byte and the
bytes after it, the decoded code point and the remaining bytes. Rejects
stray or missing continuation bytes, overlong forms, surrogates and values
above U+10FFFF, like Python's strict codec. -/
def utf8Step (b : Nat) (rest : Bytes) : Option (Nat × Bytes) :=
  if b < 128 then some (b, rest)
  else if b < 192 then none
  else if b < 224 then
    match rest with
    | b2 :: r =>
      if isCont b2 then
        let c := (b - 192) * 64 + (b2 - 128)
        if 128 ≤ c then some (c, r) else none
      else none
    | [] => none
  else if b < 240 then
    match rest with
    | b2 :: b3 :: r =>
      if isCont b2 && isCont b3 then
        let c := ((b - 224) * 64 + (b2 - 128)) * 64 + (b3 - 128)
        if 2048 ≤ c && !(55296 ≤ c && c < 57344) then some (c, r)
        else none
      else none
    | _ => none
  else if b < 245 then
    match rest with
    | b2 :: b3 :: b4 :: r =>
      if isCont b2 && isCont b3 && isCont b4 then
        let c := (((b - 240) * 64 + (b2 - 128)) * 64 + (b3 - 128)) * 64
                   + (b4 - 128)
        if 65536 ≤ c ∧ c < 1114112 then some (c, r)
        else none
      else none
    | _ => none
  else none

/-- Strict UTF-8 decoding, one `utf8Step` per code point. The fuel only
bounds the recursion; every step consumes at least the lead byte, so any
fuel at least the byte count gives the decoder's value. -/
def utf8DecodeLoop : Nat → Bytes → Option (List Nat)
  | _, [] => some []
  | 0, _ :: _ => none
  | fuel + 1, b :: rest =>
    match utf8Step b rest with
    | none => none
    | some (c, r) => (utf8DecodeLoop fuel r).map (c :: ·)

/-- Strict UTF-8 decoding (`bytes.decode('utf-8')`). -/
def utf8Decode (bs : Bytes) : Option (List Nat) :=
  utf8DecodeLoop bs.length bs

/-- The per-entry data of an index entry, besides the path: exactly the
tuple `(ctime, mtime, dev, ino, mode, uid, gid, size, sha, flags)` that
`index.py` passes around (times as `(seconds, nanoseconds)` pairs, the sha
as its 20 raw bytes). -/
structure CacheEntryData where
  ctime : Nat × Nat
  mtime : Nat × Nat
  dev : Nat
  ino : Nat
  mode : Nat
  uid : Nat
  gid : Nat
  size : Nat
  sha : Bytes
  flags : Nat
deriving DecidableEq

/-- An index entry: the path (a Python `str`, i.e. code points) plus the
data tuple. -/
abbrev IndexEntry := List Nat × CacheEntryData

/-- `write_cache_time` for a `(seconds, nanoseconds)` tuple
(the `int`/`float` coercion branches concern other callers and are not
exercised by entries, which always carry tuples). -/
def writeCacheTime (t : Nat × Nat) : Except GErr Bytes := do
  let a ← pack32 t.1
  let b ← pack32 t.2
  .ok (a ++ b)

/-- `write_cache_entry`: append one entry record to the stream `pre`
(`beginoffset` is `f.tell()`, i.e. `pre.length`). -/
def writeCacheEntry (pre : Bytes) (entry : IndexEntry) : Except GErr Bytes := do
  let beginoffset := pre.length
  let e := entry.2
  let ct ← writeCacheTime e.ctime
  let mt ← writeCacheTime e.mtime
  let flags := Nat.lor entry.1.length (e.flags - e.flags % 4096)
  let d ← pack32 e.dev
  let i ← pack32 e.ino
  let m ← pack32 e.mode
  let u ← pack32 e.uid
  let g ← pack32 e.gid
  let s ← pack32 e.size
  let fl ← pack16 flags
  let body := pre ++ ct ++ mt ++ d ++ i ++ m ++ u ++ g ++ s
                ++ pack20s e.sha ++ fl ++ utf8Encode entry.1
  let realSize := alignDown8 (body.length - beginoffset + 8)
  .ok (body ++ List.replicate ((beginoffset + realSize) - body.length) 0)

/-- `read_cache_time`: struct `>LL` from `f.read(8)`. -/
def readCacheTime (data : Bytes) (pos : Nat) :
    Except GErr ((Nat × Nat) × Nat) :=
  match readBytes data pos 8 with
  | [a0, a1, a2, a3, b0, b1, b2, b3] =>
    .ok ((unpack32 a0 a1 a2 a3, unpack32 b0 b1 b2 b3), pos + 8)
  | _ => .error .structError

/-- One big-endian 32-bit field of the entry struct. -/
def readU32 (data : Bytes) (pos : Nat) : Except GErr (Nat × Nat) :=
  match readBytes data pos 4 with
  | [a, b, c, d] => .ok (unpack32 a b c d, pos + 4)
  | _ => .error .structError

/-- One big-endian 16-bit field of the entry struct. -/
def readU16 (data : Bytes) (pos : Nat) : Except GErr (Nat × Nat) :=
  match readBytes data pos 2 with
  | [a, b] => .ok (a * 256 + b, pos + 2)
  | _ => .error .structError

/-- `read_cache_entry`: decode one record starting at `pos`
(`beginoffset`), returning the entry and the position after its padding. -/
def readCacheEntry (data : Bytes) (pos : Nat) :
    Except GErr (IndexEntry × Nat) := do
  let beginoffset := pos
  let (ctime, p1) ← readCacheTime data pos
  let (mtime, p2) ← readCacheTime data p1
  let (dev, p3) ← readU32 data p2
  let (ino, p4) ← readU32 data p3
  let (mode, p5) ← readU32 data p4
  let (uid, p6) ← readU32 data p5
  let (gid, p7) ← readU32 data p6
  let (size, p8) ← readU32 data p7
  let sha := readBytes data p8 20
  if sha.length ≠ 20 then .error .structError
  else do
    let (flags, p9) ← readU16 data (p8 + 20)
    let nameBytes := readBytes data p9 (flags % 4096)
    match utf8Decode nameBytes with
    | none => .error .unicodeDecodeError
    | some name =>
      let p10 := p9 + nameBytes.length
      let realSize := alignDown8 (p10 - beginoffset + 8)
      let padding := readBytes data p10 (beginoffset + realSize - p10)
      .ok ((name,
            { ctime := ctime, mtime := mtime, dev := dev, ino := ino,
              mode := mode, uid := uid, gid := gid, size := size,
              sha := sha, flags := flags - flags % 4096 }),
           p10 + padding.length)

/-- The body of the `for` loop of `read_index`: decode `n` successive
records. -/
def readIndexLoop (data : Bytes) : Nat → Nat →
    Except GErr (List IndexEntry × Nat)
  | 0, pos => .ok ([], pos)
  | n + 1, pos => do
    let (e, p') ← readCacheEntry data pos
    let (rest, p'') ← readIndexLoop data n p'
    .ok (e :: rest, p'')

/-- `read_index`: header magic, version 1 or 2, entry count, entries. -/
def readIndex (data : Bytes) : Except GErr (List IndexEntry × Nat) :=
  if readBytes data 0 4 ≠ ascii "DIRC" then
    .error (.assertionError (ascii "Invalid index file header"))
  else
    match readBytes data 4 8 with
    | [v0, v1, v2, v3, c0, c1, c2, c3] =>
      if unpack32 v0 v1 v2 v3 ≠ 1 ∧ unpack32 v0 v1 v2 v3 ≠ 2 then
        .error (.assertionError (ascii "version"))
      else readIndexLoop data (unpack32 c0 c1 c2 c3) 12
    | _ => .error .structError

/-- `read_index_dict`: decode and key the entries by path
(`ret[x[0]] = tuple(x[1:])`, later entries overriding earlier ones). -/
def readIndexDict (data : Bytes) :
    Except GErr (List (List Nat × CacheEntryData)) := do
  let (entries, _) ← readIndex data
  .ok (entries.foldl (fun m e => alSet m e.1 e.2) [])

/-- The entry-writing loop of `write_index`. -/
def writeIndexFold : List IndexEntry → Bytes → Except GErr Bytes
  | [], pre => .ok pre
  | e :: rest, pre => do
    let pre' ← writeCacheEntry pre e
    writeIndexFold rest pre'

/-- `write_index`: magic, version 2, entry count, then the records. -/
def writeIndex (entries : List IndexEntry) : Except GErr Bytes := do
  let two ← pack32 2
  let cnt ← pack32 entries.length
  writeIndexFold entries (ascii "DIRC" ++ two ++ cnt)

/-- `write_index` followed by `read_index_dict` on the produced bytes. -/
def indexRoundTrip (entries : List IndexEntry) :
    Except GErr (List (List Nat × CacheEntryData)) :=
  (writeIndex entries).bind readIndexDict

/-- The flags value an entry comes back with after a round trip: the low
12 bits are overwritten with the path length on write and masked away on
read. -/
def maskFlags (d : CacheEntryData) : CacheEntryData :=
  { d with flags := d.flags - d.flags % 4096 }

/-- Field ranges under which `write_cache_entry` succeeds: every 32-bit
field in range, the flags a 16-bit value, the sha 20 bytes long. -/
def entryInRange (e : IndexEntry) : Prop :=
  e.2.ctime.1 < 4294967296 ∧ e.2.ctime.2 < 4294967296 ∧
  e.2.mtime.1 < 4294967296 ∧ e.2.mtime.2 < 4294967296 ∧
  e.2.dev < 4294967296 ∧ e.2.ino < 4294967296 ∧ e.2.mode < 4294967296 ∧
  e.2.uid < 4294967296 ∧ e.2.gid < 4294967296 ∧ e.2.size < 4294967296 ∧
  e.2.flags < 65536 ∧ e.2.sha.length = 20

instance (e : IndexEntry) : Decidable (entryInRange e) := by
  unfold entryInRange; infer_instance

/-! ## Tree builder (index.py lines 39-57 and 294-331) -/

/-- `pathsplit`: `path.rsplit(b"/", 1)`, returning `(b"", path)` when there
is no slash. -/
def pathsplitB (path : Bytes) : Bytes × Bytes :=
  if path.contains 47 then
    let rev := path.reverse
    ((rev.dropWhile (fun b => !(b == 47))).tail.reverse,
     (rev.takeWhile (fun b => !(b == 47))).reverse)
  else ([], path)

/-- `pathjoin` on two components: join the nonempty ones with a slash. -/
def pathjoinB (a b : Bytes) : Bytes :=
  if a.isEmpty then b else if b.isEmpty then a else a ++ [47] ++ b

/-- A value of one of the nested dicts built by `commit_tree`: a blob leaf
`(mode, sha)`, or a marker for a nested dict (whose contents are reached
through the top-level `trees` dict, exactly as `build_tree` reads them). -/
inductive TEnt where
  | blob (mode : Nat) (sha : Bytes)
  | sub
deriving DecidableEq

/-- The `trees` dict of `commit_tree`: path → {basename → entry}. -/
abbrev TreesMap := List (Bytes × List (Bytes × TEnt))

/-- `add_tree`, fuelled (the source recursion terminates because the
dirname of a path is strictly shorter; a fuel of `path.length + 1` always
suffices).  Returns the updated `trees` dict. -/
def addTree : Nat → TreesMap → Bytes → Option TreesMap
  | 0, _, _ => none
  | fuel + 1, trees, path =>
    if (alGet trees path).isSome then some trees
    else
      let ps := pathsplitB path
      match addTree fuel trees ps.1 with
      | none => none
      | some trees1 =>
        let parent := (alGet trees1 ps.1).getD []
        let trees2 := alSet trees1 ps.1 (alSet parent ps.2 .sub)
        some (alSet trees2 path [])

/-- Modelled from the spec: the `Tree` object of `dulwich/objects.py` is
not among the sources.  Per §3/§4.7 it is a mapping from basename to
`(mode, object id)` with a deterministic sorted serialization; `add`
records an entry. -/
structure TreeObj where
  entries : List (Bytes × Nat × Bytes)
deriving DecidableEq

/-- Lexicographic byte-order on names, used for sorted serialization. -/
def bytesLt : Bytes → Bytes → Bool
  | [], [] => false
  | [], _ :: _ => true
  | _ :: _, [] => false
  | a :: as, b :: bs => a < b || (a == b && bytesLt as bs)

/-- Insertion step of the sort used by the serializer. -/
def insertByName (e : Bytes × Nat × Bytes) :
    List (Bytes × Nat × Bytes) → List (Bytes × Nat × Bytes)
  | [] => [e]
  | f :: rest =>
    if bytesLt e.1 f.1 then e :: f :: rest else f :: insertByName e rest

/-- Sort tree entries by name. -/
def sortByName (l : List (Bytes × Nat × Bytes)) : List (Bytes × Nat × Bytes) :=
  l.foldr insertByName []

/-- Octal digits of a mode (fuelled division chain). -/
def natToOctalAux : Nat → Nat → Bytes
  | 0, _ => []
  | _ + 1, 0 => []
  | f + 1, n => natToOctalAux f (n / 8) ++ [48 + n % 8]

/-- ASCII octal rendering of a file mode, as in git tree entries. -/
def natToOctal (n : Nat) : Bytes :=
  if n = 0 then [48] else natToOctalAux n n

/-- Modelled from the spec: the content id of a `Tree` (`tree.id`).  The
object model (not among the sources) content-addresses the deterministic
sorted serialization `"<octal mode> <name>\0<sha>"` per entry; the hash
itself is modelled by the serialized form, an injective stand-in for
SHA-1. -/
def TreeObj.id (t : TreeObj) : Bytes :=
  ((sortByName t.entries).map
    (fun e => natToOctal e.2.1 ++ [32] ++ e.1 ++ [0] ++ e.2.2)).flatten

/-- `stat.S_IFDIR`. -/
def S_IFDIR : Nat := 16384

/-- `build_tree`, fuelled on the recursion depth (the source recursion
terminates because the nested dicts form a finite tree; a fuel of
`trees.length + 1` bounds the depth): serialize the node at `path` by
walking its entries in insertion order — dict entries recurse into the
child path with directory mode, leaves keep their `(mode, sha)` — then
add the produced `Tree` to the object store (the accumulated list) and
return its id. -/
def buildTree (trees : TreesMap) : Nat → Bytes → List TreeObj →
    Option (Bytes × List TreeObj)
  | 0, _, _ => none
  | f + 1, path, store =>
    let r := ((alGet trees path).getD []).foldl
      (fun acc e =>
        match acc with
        | none => none
        | some (es, st) =>
          match e.2 with
          | .blob mode sha => some (es ++ [(e.1, mode, sha)], st)
          | .sub =>
            match buildTree trees f (pathjoinB path e.1) st with
            | none => none
            | some (sha, st') => some (es ++ [(e.1, S_IFDIR, sha)], st'))
      (some (([] : List (Bytes × Nat × Bytes)), store))
    match r with
    | none => none
    | some (es, st) =>
      let t : TreeObj := ⟨es⟩
      some (t.id, st ++ [t])

/-- `commit_tree`: build the nested `trees` dict from the flat blob
triples `(path, sha, mode)` (paths are Python `str` values, encoded to
UTF-8 bytes), then serialize bottom-up from the root `b''`.  Returns the
root tree id and the object store contents. -/
def commitTree (blobs : List (List Nat × Bytes × Nat)) :
    Option (Bytes × List TreeObj) :=
  let start : Option TreesMap := some [([], [])]
  let folded := blobs.foldl
    (fun acc blob =>
      match acc with
      | none => none
      | some trees =>
        let pathB := utf8Encode blob.1
        let ps := pathsplitB pathB
        match addTree (pathB.length + 1) trees ps.1 with
        | none => none
        | some trees1 =>
          let node := (alGet trees1 ps.1).getD []
          some (alSet trees1 ps.1
            (alSet node ps.2 (.blob blob.2.2 blob.2.1))))
    start
  match folded with
  | none => none
  | some trees => buildTree trees (trees.length + 1) [] []

/-- The root tree id returned by `commit_tree`. -/
def commitTreeRoot (blobs : List (List Nat × Bytes × Nat)) : Option Bytes :=
  (commitTree blobs).map Prod.fst

/-! ## Smart-protocol client (client.py)

A protocol stream is modelled at the pkt-line level: the readable side is a
`List Pkt` (each element the payload of `read_pkt_line`, `none` being the
flush) optionally followed by raw trailing bytes; `proto.read()` of the
remainder is the wire form of the unconsumed packets plus the raw tail.
Object ids (`Sha1Sum`, not among the sources) are carried on this layer as
their 40 hex bytes, so `Sha1Sum(sha)` / `.hex_bytes` are the identity. -/

/-- A pkt-line payload, or `none` for the flush packet. -/
abbrev Pkt := Option Bytes

/-- A refs dict: ref name → object id (hex bytes). -/
abbrev RefMap := List (Bytes × Bytes)

/-- `ZERO_SHA` (protocol.py): the all-zero sentinel id, in hex form. -/
def ZERO_SHA : Bytes := List.replicate 40 48

/-- `COMMON_CAPABILITIES`. -/
def COMMON_CAPABILITIES : List Bytes := [ascii "ofs-delta", ascii "side-band-64k"]

/-- `FETCH_CAPABILITIES`. -/
def FETCH_CAPABILITIES : List Bytes :=
  [ascii "multi_ack", ascii "multi_ack_detailed"] ++ COMMON_CAPABILITIES

/-- `SEND_CAPABILITIES`. -/
def SEND_CAPABILITIES : List Bytes :=
  [ascii "report-status"] ++ COMMON_CAPABILITIES

/-- `b' '.join(parts)`. -/
def joinSp : List Bytes → Bytes
  | [] => []
  | [c] => c
  | c :: rest => c ++ [32] ++ joinSp rest

/-- An ASCII hex digit (lowercase, as `'%04x'` renders them). -/
def hexDigit (d : Nat) : Nat := if d < 10 then 48 + d else 87 + d

/-- The 4-digit hex length prefix of a pkt-line. -/
def hex4 (n : Nat) : Bytes :=
  [hexDigit (n / 4096 % 16), hexDigit (n / 256 % 16),
   hexDigit (n / 16 % 16), hexDigit (n % 16)]

/-- The wire form of a packet (`write_pkt_line`): length prefix plus
payload, the flush being `0000`. -/
def pktWire : Pkt → Bytes
  | none => ascii "0000"
  | some p => hex4 (p.length + 4) ++ p

/-- `proto.read()` of everything left on a stream. -/
def streamResidual (pkts : List Pkt) (raw : Bytes) : Bytes :=
  (pkts.map pktWire).flatten ++ raw

/-- Modelled from the spec: `extract_capabilities` (protocol.py, not among
the sources; §4.2): split the first advertised ref on the first NUL byte —
no NUL means no capabilities — the capabilities being space-separated. -/
def extractCapabilities (line : Bytes) : Bytes × List Bytes :=
  if line.contains 0 then
    (line.takeWhile (fun b => !(b == 0)),
     splitSp ((line.dropWhile (fun b => !(b == 0))).tail))
  else (line, [])

/-- Result of `_read_refs`: the refs dict, the server capabilities (still
`None` when no ref line arrived), and the unconsumed stream. -/
structure ReadRefsOut where
  refs : RefMap
  caps : Option (List Bytes)
  rest : List Pkt
deriving DecidableEq

/-- The loop of `_read_refs` over `read_pkt_seq`. -/
def readRefsLoop : List Pkt → RefMap → Option (List Bytes) →
    Except GErr ReadRefsOut
  | [], _, _ => .error .eofError
  | none :: rest, refs, caps => .ok ⟨refs, caps, rest⟩
  | some pkt :: rest, refs, caps =>
    let line := rstripNl pkt
    if !(hasSpace line) then .error .valueError
    else
      let s := splitFirstSpace line
      if s.1 == ascii "ERR" then .error (.gitProtocolError s.2)
      else
        match caps with
        | none =>
          let ec := extractCapabilities s.2
          readRefsLoop rest (alSet refs ec.1 s.1) (some ec.2)
        | some c => readRefsLoop rest (alSet refs s.2 s.1) (some c)

/-- `_read_refs`. -/
def readRefs (stream : List Pkt) : Except GErr ReadRefsOut :=
  readRefsLoop stream [] none

/-! ### Fetch: `_handle_upload_pack_head` (client.py lines 322-356) -/

/-- Result of the upload-pack head phase: the pkt-lines written, the ids
acked on the graph walker, the number of `can_read()` calls made, whether
an `ACK <id> ready` ended the have loop, the haves actually sent, and the
unconsumed stream. -/
structure HeadOut where
  written : List Pkt
  acks : List Bytes
  crCalls : Nat
  sawReady : Bool
  havesSent : List Bytes
  rest : List Pkt
deriving DecidableEq

/-- The have loop of `_handle_upload_pack_head`.  `haves` is the sequence
the graph walker yields before returning a falsy value; `canRead` gives
the successive answers of the transport's `can_read` predicate, indexed by
call number `k`; the accumulator carries written lines, acks and haves
sent so far. -/
def headLoop (canRead : Nat → Bool) :
    List Bytes → List Pkt → Nat → List Pkt → List Bytes → List Bytes →
    Except GErr HeadOut
  | [], stream, k, w, acks, sent =>
    .ok ⟨w ++ [some (ascii "done" ++ [10])], acks, k, false, sent, stream⟩
  | h :: hs, stream, k, w, acks, sent =>
    let w' := w ++ [some (ascii "have " ++ h ++ [10])]
    let sent' := sent ++ [h]
    if canRead k then
      match stream with
      | [] => .error .eofError
      | none :: _ => .error .attributeError
      | some pkt :: rest =>
        let parts := splitSp (rstripNl pkt)
        if parts.headD [] == ascii "ACK" then
          match parts[1]? with
          | none => .error .indexError
          | some id2 =>
            let acks' := acks ++ [id2]
            match parts[2]? with
            | none => .error .indexError
            | some st =>
              if st == ascii "continue" || st == ascii "common" then
                headLoop canRead hs rest (k + 1) w' acks' sent'
              else if st == ascii "ready" then
                .ok ⟨w' ++ [some (ascii "done" ++ [10])], acks', k + 1,
                     true, sent', rest⟩
              else .error (.assertionError st)
        else headLoop canRead hs rest (k + 1) w' acks sent'
    else headLoop canRead hs stream (k + 1) w' acks sent'

/-- `_handle_upload_pack_head`: want lines (capabilities on the first),
flush, then the have loop.  An empty `wants` list raises `IndexError` at
`wants[0]`. -/
def handleUploadPackHead (canRead : Nat → Bool) (capabilities : List Bytes)
    (wants haves : List Bytes) (stream : List Pkt) : Except GErr HeadOut :=
  match wants with
  | [] => .error .indexError
  | w0 :: ws =>
    headLoop canRead haves stream 0
      ([some (ascii "want " ++ w0 ++ [32] ++ joinSp capabilities ++ [10])]
        ++ ws.map (fun w => some (ascii "want " ++ w ++ [10])) ++ [none])
      [] []

/-! ### Fetch: `_handle_upload_pack_tail` (client.py lines 358-389) -/

/-- The ACK loop at the start of `_handle_upload_pack_tail`.  Note the
source acks `pkt.split(b' ')[1]` of the unstripped packet. -/
def tailAckLoop : List Pkt → List Bytes → Except GErr (List Bytes × List Pkt)
  | [], _ => .error .eofError
  | none :: rest, acks => .ok (acks, rest)
  | some p :: rest, acks =>
    if p.isEmpty then .ok (acks, rest)
    else
      let parts := splitSp (rstripNl p)
      let ackStep : Except GErr (List Bytes) :=
        if parts.headD [] == ascii "ACK" then
          match (splitSp p)[1]? with
          | none => .error .indexError
          | some a => .ok (acks ++ [a])
        else .ok acks
      match ackStep with
      | .error e => .error e
      | .ok acks' =>
        if parts.length < 3 then .ok (acks', rest)
        else
          match parts[2]? with
          | none => .ok (acks', rest)
          | some st =>
            if st == ascii "ready" || st == ascii "continue"
                || st == ascii "common" then
              tailAckLoop rest acks'
            else .ok (acks', rest)

/-- `_read_side_band64k_data` with `{1: pack_data, 2: progress}`
(the upload-pack tail): demultiplex until the flush; an empty packet has
no channel byte (`IndexError`), an unknown channel is an
`AssertionError`. -/
def readSidebandUpload : List Pkt → List Bytes → List Bytes →
    Except GErr (List Bytes × List Bytes × List Pkt)
  | [], _, _ => .error .eofError
  | none :: rest, pd, pg => .ok (pd, pg, rest)
  | some pkt :: rest, pd, pg =>
    match pkt with
    | [] => .error .indexError
    | c :: payload =>
      if c == 1 then readSidebandUpload rest (pd ++ [payload]) pg
      else if c == 2 then readSidebandUpload rest pd (pg ++ [payload])
      else .error (.assertionError (ascii "Invalid sideband channel"))

/-- Result of the upload-pack tail: acks, pack-data chunks, progress
chunks. -/
structure TailOut where
  acks : List Bytes
  packData : List Bytes
  progressData : List Bytes
deriving DecidableEq

/-- `_handle_upload_pack_tail`.  Without `side-band-64k` the source reads
`self.read(rbufsize)` — an attribute `GitClient` does not have — so that
branch raises `AttributeError`. -/
def handleUploadPackTail (capabilities : List Bytes) (stream : List Pkt)
    (raw : Bytes) : Except GErr TailOut := do
  let (acks, rest) ← tailAckLoop stream []
  if capabilities.contains (ascii "side-band-64k") then do
    let (pd, pg, rest') ← readSidebandUpload rest [] []
    let residual := streamResidual rest' raw
    if residual ≠ [] then .error (.unexpectedResponse residual)
    else .ok ⟨acks, pd, pg⟩
  else .error .attributeError

/-! ### `fetch_pack` -/

/-- Result of a `fetch_pack` call: everything written, the returned refs,
the acks, and the received pack/progress chunks. -/
structure FetchRes where
  written : List Pkt
  refs : RefMap
  acks : List Bytes
  packData : List Bytes
  progressData : List Bytes
deriving DecidableEq

/-- `TraditionalGitClient.fetch_pack`: read the advertisement, determine
wants (a `None` return and an empty list are both falsy, so one parameter
covers both), and either return the refs after a flush, or run the head
and tail phases.  `thinPacks` is the constructor flag (default true). -/
def fetchPackTraditional (stream : List Pkt) (raw : Bytes)
    (determineWants : RefMap → List Bytes) (haves : List Bytes)
    (canRead : Nat → Bool) (thinPacks : Bool) : Except GErr FetchRes := do
  let rr ← readRefs stream
  let negotiated := FETCH_CAPABILITIES
    ++ (if thinPacks then [ascii "thin-pack"] else [])
  let wants := determineWants rr.refs
  if wants.isEmpty then
    .ok ⟨[none], rr.refs, [], [], []⟩
  else do
    let ho ← handleUploadPackHead canRead negotiated wants haves rr.rest
    let t ← handleUploadPackTail negotiated ho.rest raw
    .ok ⟨ho.written, rr.refs, ho.acks ++ t.acks, t.packData, t.progressData⟩

/-- `HttpGitClient._discover_references`: HTTP status handling, the smart
service announcement (one pkt-line naming the service, then a flush), then
`_read_refs`.  `code` is the HTTP status, `dumb` the mode derived from the
response content type. -/
def discoverReferences (service : Bytes) (code : Nat) (dumb : Bool)
    (stream : List Pkt) : Except GErr ReadRefsOut :=
  if code == 404 then .error .notGitRepository
  else if code ≠ 200 then
    .error (.gitProtocolError (ascii "unexpected http response"))
  else if dumb then readRefs stream
  else
    match stream with
    | some l :: none :: rest =>
      if l == ascii "# service=" ++ service ++ [10] then readRefs rest
      else .error (.gitProtocolError (ascii "unexpected first line"))
    | _ => .error (.gitProtocolError (ascii "unexpected first line"))

/-- `HttpGitClient.fetch_pack`: negotiated capabilities are the *server's*
capability list; the request protocol cannot be read (`can_read` is
constantly false), the tail runs on the response stream.  With an empty
want list the refs are returned with nothing written at all. -/
def httpFetchPack (code : Nat) (dumb : Bool) (advStream : List Pkt)
    (determineWants : RefMap → List Bytes) (haves : List Bytes)
    (respStream : List Pkt) (respRaw : Bytes) : Except GErr FetchRes := do
  let rr ← discoverReferences (ascii "git-upload-pack") code dumb advStream
  match rr.caps with
  | none => .error .typeError
  | some serverCaps =>
    let wants := determineWants rr.refs
    if wants.isEmpty then
      .ok ⟨[], rr.refs, [], [], []⟩
    else if dumb then .error .notImplemented
    else do
      let ho ← handleUploadPackHead (fun _ => false) serverCaps wants haves []
      let t ← handleUploadPackTail serverCaps respStream respRaw
      .ok ⟨ho.written, rr.refs, ho.acks ++ t.acks, t.packData, t.progressData⟩

/-! ### Push: `_handle_receive_pack_head` (client.py lines 264-292) -/

/-- First-occurrence deduplication, modelling iteration over the Python
`set` of ref names (set order is hash-dependent; no modelled result
depends on it). -/
def dedupList (l : List Bytes) : List Bytes :=
  l.foldl (fun acc x => if acc.contains x then acc else acc ++ [x]) []

/-- Result of the receive-pack head phase. -/
structure RPHeadOut where
  written : List Pkt
  haveIds : List Bytes
  wantIds : List Bytes
deriving DecidableEq

/-- One refname step of `_handle_receive_pack_head`: write the update line
when old and new ids differ (capabilities once, on the first such line),
and accumulate `want`. -/
def rpHeadStep (caps : List Bytes) (oldRefs newRefs : RefMap)
    (have0 : List Bytes) (acc : List Pkt × List Bytes × Bool)
    (refname : Bytes) : List Pkt × List Bytes × Bool :=
  let oldSha := (alGet oldRefs refname).getD ZERO_SHA
  let newSha := (alGet newRefs refname).getD ZERO_SHA
  let a1 :=
    if oldSha ≠ newSha then
      if acc.2.2 then
        (acc.1 ++ [some (oldSha ++ [32] ++ newSha ++ [32] ++ refname)],
         acc.2.1, true)
      else
        (acc.1 ++ [some (oldSha ++ [32] ++ newSha ++ [32] ++ refname
           ++ [0] ++ joinSp caps)], acc.2.1, true)
    else acc
  if !(have0.contains newSha) && newSha ≠ ZERO_SHA then
    (a1.1, a1.2.1 ++ [newSha], a1.2.2)
  else a1

/-- `_handle_receive_pack_head`: `have` is every non-zero old id; iterate
the union of ref names; terminate with a flush. -/
def handleReceivePackHead (caps : List Bytes) (oldRefs newRefs : RefMap) :
    RPHeadOut :=
  let have0 := (oldRefs.map Prod.snd).filter (fun x => !(x == ZERO_SHA))
  let keys := dedupList (newRefs.map Prod.fst ++ oldRefs.map Prod.fst)
  let r := keys.foldl (rpHeadStep caps oldRefs newRefs have0) ([], [], false)
  ⟨r.1 ++ [none], have0, r.2.1⟩

/-! ### Push: `_handle_receive_pack_tail` (client.py lines 294-320) -/

/-- Modelled from the spec: `PktLineParser` (protocol.py, not among the
sources) incrementally reframes a raw byte stream into pkt-lines per §4.1:
a 4-hex-digit length (including the prefix itself), `0000` being the
flush; an incomplete frame stays buffered. -/
def hexVal (b : Nat) : Option Nat :=
  if 48 ≤ b ∧ b ≤ 57 then some (b - 48)
  else if 97 ≤ b ∧ b ≤ 102 then some (b - 87)
  else if 65 ≤ b ∧ b ≤ 70 then some (b - 55)
  else none

/-- Parse the 4-digit hex length prefix. -/
def parseHex4 : Bytes → Option Nat
  | [a, b, c, d] => do
    let x0 ← hexVal a
    let x1 ← hexVal b
    let x2 ← hexVal c
    let x3 ← hexVal d
    pure (((x0 * 16 + x1) * 16 + x2) * 16 + x3)
  | _ => none

/-- Split as many complete pkt-line frames as possible off a buffer
(fuelled by the buffer length; each frame consumes at least 4 bytes). -/
def splitFrames : Nat → Bytes → List Pkt → Except GErr (List Pkt × Bytes)
  | 0, buf, acc => .ok (acc, buf)
  | fuel + 1, buf, acc =>
    if buf.length < 4 then .ok (acc, buf)
    else
      match parseHex4 (buf.take 4) with
      | none => .error (.gitProtocolError (ascii "invalid pkt-line length"))
      | some 0 => splitFrames fuel (buf.drop 4) (acc ++ [none])
      | some n =>
        if n < 4 then .error (.gitProtocolError (ascii "invalid pkt-line length"))
        else if buf.length < n then .ok (acc, buf)
        else splitFrames fuel (buf.drop n) (acc ++ [some ((buf.take n).drop 4)])

/-- The sideband loop of `_handle_receive_pack_tail`: channel 2 is
progress; channel 1 feeds the pkt-line reframer and the report-status
parser, but only when `report-status` was negotiated — otherwise channel 1
has no callback and hits the `Invalid sideband channel` assertion. -/
def rpSideband (hasRS : Bool) : List Pkt → RSParser → Bytes → List Bytes →
    Except GErr (RSParser × List Bytes × List Pkt)
  | [], _, _, _ => .error .eofError
  | none :: rest, rs, _, pg => .ok (rs, pg, rest)
  | some pkt :: rest, rs, buf, pg =>
    match pkt with
    | [] => .error .indexError
    | c :: payload =>
      if c == 2 then rpSideband hasRS rest rs buf (pg ++ [payload])
      else if c == 1 && hasRS then
        match splitFrames (buf ++ payload).length (buf ++ payload) [] with
        | .error e => .error e
        | .ok (pkts, buf') =>
          match pkts.foldlM RSParser.handlePacket rs with
          | .error e => .error e
          | .ok rs' => rpSideband hasRS rest rs' buf' pg
      else .error (.assertionError (ascii "Invalid sideband channel"))

/-- Collect the packets `read_pkt_seq` yields (everything before the
flush, which itself is not yielded). -/
def takeUntilFlush : List Pkt → Except GErr (List Bytes × List Pkt)
  | [] => .error .eofError
  | none :: rest => .ok ([], rest)
  | some p :: rest =>
    match takeUntilFlush rest with
    | .error e => .error e
    | .ok (ps, r) => .ok (p :: ps, r)

/-- `_handle_receive_pack_tail`: run the report-status parser over the
sideband channel 1 or the plain packet sequence (when negotiated), call
`check()`, then require EOF.  Returns the progress chunks. -/
def handleReceivePackTail (caps : List Bytes) (stream : List Pkt)
    (raw : Bytes) : Except GErr (List Bytes) := do
  let hasRS := caps.contains (ascii "report-status")
  if caps.contains (ascii "side-band-64k") then do
    let (rs, pg, rest) ← rpSideband hasRS stream RSParser.mkInit [] []
    if hasRS then rs.check else pure ()
    let residual := streamResidual rest raw
    if residual ≠ [] then .error (.sendPackError (some residual))
    else .ok pg
  else if hasRS then do
    let (ps, rest) ← takeUntilFlush stream
    let rs ← (ps.map some).foldlM RSParser.handlePacket RSParser.mkInit
    rs.check
    let residual := streamResidual rest raw
    if residual ≠ [] then .error (.sendPackError (some residual))
    else .ok []
  else
    let residual := streamResidual stream raw
    if residual ≠ [] then .error (.sendPackError (some residual))
    else .ok []

/-! ### `send_pack` -/

/-- Python dict equality on ref maps: equal key sets with equal values. -/
def refMapEqB (a b : RefMap) : Bool :=
  (a.map Prod.fst).all (fun k => alGet a k == alGet b k)
    && (b.map Prod.fst).all (fun k => alGet a k == alGet b k)

/-- Result of a `send_pack` call: the negotiated capabilities, the
pkt-lines written, the objects the pack generator produced (`none` when
`generate_pack_contents` was never invoked), whether a pack stream was
written, the progress chunks, and the returned refs. -/
structure SendRes where
  negotiated : List Bytes
  written : List Pkt
  packObjects : Option (List Nat)
  packWritten : Bool
  progressData : List Bytes
  refs : RefMap
deriving DecidableEq

/-- `TraditionalGitClient.send_pack`: read the advertisement (capabilities
`None` makes the membership test a `TypeError`), drop `report-status` from
the default send capabilities when the server did not advertise it, let
the caller determine the new refs (`None` aborts with a flush), write the
head, and — unless nothing is wanted and the refs are unchanged — generate
and send the pack and run the tail. -/
def sendPackTraditional (stream : List Pkt) (raw : Bytes)
    (determineWants : RefMap → Option RefMap)
    (generate : List Bytes → List Bytes → List Nat) : Except GErr SendRes := do
  let rr ← readRefs stream
  match rr.caps with
  | none => .error .typeError
  | some serverCaps =>
    let negotiated :=
      if serverCaps.contains (ascii "report-status") then SEND_CAPABILITIES
      else SEND_CAPABILITIES.erase (ascii "report-status")
    match determineWants rr.refs with
    | none => .ok ⟨negotiated, [none], none, false, [], rr.refs⟩
    | some newRefs =>
      let ho := handleReceivePackHead negotiated rr.refs newRefs
      if ho.wantIds.isEmpty ∧ refMapEqB rr.refs newRefs then
        .ok ⟨negotiated, ho.written, none, false, [], newRefs⟩
      else do
        let objects := generate ho.haveIds ho.wantIds
        let pg ← handleReceivePackTail negotiated rr.rest raw
        .ok ⟨negotiated, ho.written, some objects, !objects.isEmpty, pg,
             newRefs⟩

/-- `HttpGitClient.send_pack`: the negotiated capabilities are the default
send capabilities, *unchanged* whatever the server advertised; a `None`
new-refs result returns the old refs without writing; the head goes into
the request buffer; unless nothing is wanted and the refs are unchanged,
the pack is generated and the tail runs over the POST response
(`respCode`/`contentTypeOk` model `_smart_request`'s checks). -/
def httpSendPack (code : Nat) (dumb : Bool) (advStream : List Pkt)
    (determineWants : RefMap → Option RefMap)
    (generate : List Bytes → List Bytes → List Nat)
    (respCode : Nat) (contentTypeOk : Bool)
    (respStream : List Pkt) (respRaw : Bytes) : Except GErr SendRes := do
  let rr ← discoverReferences (ascii "git-receive-pack") code dumb advStream
  let negotiated := SEND_CAPABILITIES
  match determineWants rr.refs with
  | none => .ok ⟨negotiated, [], none, false, [], rr.refs⟩
  | some newRefs =>
    if dumb then .error .notImplemented
    else
      let ho := handleReceivePackHead negotiated rr.refs newRefs
      if ho.wantIds.isEmpty ∧ refMapEqB rr.refs newRefs then
        .ok ⟨negotiated, ho.written, none, false, [], newRefs⟩
      else do
        let objects := generate ho.haveIds ho.wantIds
        if respCode == 404 then .error .notGitRepository
        else if respCode ≠ 200 then
          .error (.gitProtocolError (ascii "Invalid HTTP response from server"))
        else if !contentTypeOk then
          .error (.gitProtocolError (ascii "Invalid content-type from server"))
        else do
          let pg ← handleReceivePackTail negotiated respStream respRaw
          .ok ⟨negotiated, ho.written, some objects, !objects.isEmpty, pg,
               newRefs⟩

/-- The refs of the `ok` lines, in order. -/
def okRefs (ls : List RefLine) : List Bytes :=
  ls.filterMap (fun l => match l with | .okL r => some r | _ => none)

/-- The `ref_status` mapping carried by an update-rejected error (empty
for any other outcome). -/
def errRefStatus : Except GErr Unit → List (Bytes × Bytes)
  | .error (.updateRefsError _ rs) => rs
  | _ => []

/-- The 4 bytes a successful `pack32` produces. -/
def pack32v (n : Nat) : Bytes :=
  [n / 16777216 % 256, n / 65536 % 256, n / 256 % 256, n % 256]

/-- The 2 bytes a successful `pack16` produces. -/
def pack16v (n : Nat) : Bytes := [n / 256 % 256, n % 256]

/-- The 16-bit flags value `write_cache_entry` stores: path length in the
low 12 bits, the entry's own high flag bits above. -/
def storedFlags (e : IndexEntry) : Nat :=
  Nat.lor e.1.length (e.2.flags - e.2.flags % 4096)

/-- The byte layout of one record as `write_cache_entry` emits it:
times, six 32-bit fields, sha, flags, path bytes and NUL padding to the
next multiple of 8 (measured from the record start). -/
def recordBytes (e : IndexEntry) : Bytes :=
  pack32v e.2.ctime.1 ++ pack32v e.2.ctime.2
    ++ pack32v e.2.mtime.1 ++ pack32v e.2.mtime.2
    ++ pack32v e.2.dev ++ pack32v e.2.ino ++ pack32v e.2.mode
    ++ pack32v e.2.uid ++ pack32v e.2.gid ++ pack32v e.2.size
    ++ pack20s e.2.sha ++ pack16v (storedFlags e)
    ++ utf8Encode e.1
    ++ List.replicate (8 - (62 + (utf8Encode e.1).length) % 8) 0

/-- A concrete in-range entry with a 2-byte path, for which the unpadded
record length 62 + 2 = 64 is already a multiple of 8. -/
def c4entry : IndexEntry :=
  ([97, 98],
   { ctime := (1, 2), mtime := (3, 4), dev := 5, ino := 6, mode := 33188,
     uid := 7, gid := 8, size := 9, sha := List.replicate 20 170,
     flags := 0 })

/-- An advertised ref line with no NUL, hence no server capabilities. -/
def advLineNoCaps : Bytes :=
  ascii "1111111111111111111111111111111111111111 refs/heads/master\n"

/-- An advertised ref line whose capability list is
`report-status ofs-delta`. -/
def advLineRS : Bytes :=
  ascii "1111111111111111111111111111111111111111 refs/heads/master"
    ++ [0] ++ ascii "report-status ofs-delta"

/-- A traditional-transport advertisement without `report-status`. -/
def tradAdvNoRS : List Pkt := [some advLineNoCaps, none]

/-- A traditional-transport advertisement with `report-status`. -/
def tradAdvRS : List Pkt := [some advLineRS, none]

/-- An HTTP receive-pack discovery stream without `report-status`. -/
def httpAdvNoRS : List Pkt :=
  [some (ascii "# service=git-receive-pack\n"), none, some advLineNoCaps,
   none]

/-- An HTTP upload-pack discovery stream without wants relevance. -/
def httpAdvUpload : List Pkt :=
  [some (ascii "# service=git-upload-pack\n"), none, some advLineNoCaps,
   none]

/-- The concatenated records of a list of entries, as the loop of
`write_index` emits them. -/
def recsBytes (entries : List IndexEntry) : Bytes :=
  (entries.map recordBytes).flatten

/-- An in-range entry whose flags value 5 has nonzero low 12 bits. -/
def c2entryFlags : IndexEntry :=
  ([97],
   { ctime := (1, 2), mtime := (3, 4), dev := 5, ino := 6, mode := 33188,
     uid := 7, gid := 8, size := 9, sha := List.replicate 20 170,
     flags := 5 })

/-- An in-range entry whose one-character path `é` (U+00E9) encodes to two
UTF-8 bytes. -/
def c2entryNonAscii : IndexEntry :=
  ([233],
   { ctime := (1, 2), mtime := (3, 4), dev := 5, ino := 6, mode := 33188,
     uid := 7, gid := 8, size := 9, sha := List.replicate 20 170,
     flags := 0 })

/-! ## Theorems -/

/-! ### Generic helper lemmas -/

theorem ascii_ok_sp : ascii "ok " = [111, 107, 32] := rfl

theorem alSet_append_of_not_mem {α : Type} (m : List (Bytes × α)) (k : Bytes)
    (v : α) (h : k ∉ m.map Prod.fst) : alSet m k v = m ++ [(k, v)] := by
  induction m with
  | nil => rfl
  | cons p rest ih =>
    obtain ⟨k1, v1⟩ := p
    simp only [List.map_cons, List.mem_cons, not_or] at h
    have hk : (k1 == k) = false := by
      rw [beq_eq_false_iff_ne]
      exact fun e => h.1 e.symm
    simp only [alSet, hk, Bool.false_eq_true, if_false, List.cons_append,
      List.cons.injEq, true_and]
    exact ih h.2

theorem foldl_and_false (lines : List Bytes) (f : Bytes → Bool) :
    lines.foldl (fun b l => b && f l) false = false := by
  induction lines with
  | nil => rfl
  | cons l rest ih => simpa using ih

theorem foldl_and_all_false (lines : List Bytes) (f : Bytes → Bool)
    (b : Bool) (hne : lines ≠ []) (hf : ∀ l ∈ lines, f l = false) :
    lines.foldl (fun b l => b && f l) b = false := by
  cases lines with
  | nil => exact absurd rfl hne
  | cons l rest =>
    simp only [List.foldl_cons, hf l (by simp), Bool.and_false]
    exact foldl_and_false rest f

theorem not_ok_prefixed_of_no_space (l : Bytes) (h : 32 ∉ l) :
    (ascii "ok ").isPrefixOf l = false := by
  rw [ascii_ok_sp]
  match l with
  | [] => rfl
  | [a] => simp [List.isPrefixOf]
  | [a, b] => simp [List.isPrefixOf]
  | a :: b :: c :: rest =>
    have hc : (32 == c) = false := by
      rw [beq_eq_false_iff_ne]
      intro e
      exact h (by
        rw [e]
        exact List.mem_cons_of_mem _ (List.mem_cons_of_mem _
          (List.mem_cons_self _ _)))
    simp [List.isPrefixOf, hc]

theorem exc_bind_ok {α β : Type} (x : α) (f : α → Except GErr β) :
    (Except.ok x >>= f) = f x := rfl

theorem hasSpace_eq_false_of_not_mem (x : Bytes) (h : 32 ∉ x) :
    hasSpace x = false := by
  simp only [hasSpace, List.elem_eq_mem, decide_eq_false_iff_not]
  exact h

theorem foldl_checkFold_no_space (xs : List Bytes)
    (acc : List (Bytes × Bytes) × List Bytes)
    (h : ∀ x ∈ xs, hasSpace x = false) : xs.foldl checkFold acc = acc := by
  induction xs generalizing acc with
  | nil => rfl
  | cons x rest ih =>
    rw [List.foldl_cons]
    have hx : checkFold acc x = acc := by
      unfold checkFold
      rw [h x (by simp)]
      simp
    rw [hx]
    exact ih acc (fun y hy => h y (by simp [hy]))

theorem foldlM_handlePacket_somes (lines : List Bytes) (s : RSParser)
    (hd : s.done = false) (v : Bytes) (hp : s.packStatus = some v) :
    (lines.map some).foldlM RSParser.handlePacket s = .ok
      { s with
        refStatuses := s.refStatuses ++ lines.map pyStrip,
        refStatusOk := lines.foldl
          (fun b l => b && (ascii "ok ").isPrefixOf (pyStrip l))
          s.refStatusOk } := by
  induction lines generalizing s with
  | nil =>
    simp only [List.map_nil, List.foldlM_nil, List.foldl_nil, List.append_nil]
    rfl
  | cons l rest ih =>
    simp only [List.map_cons, List.foldlM_cons]
    have h1 : RSParser.handlePacket s (some l) = .ok
        { s with
          refStatuses := s.refStatuses ++ [pyStrip l],
          refStatusOk := s.refStatusOk
            && (ascii "ok ").isPrefixOf (pyStrip l) } := by
      unfold RSParser.handlePacket
      rw [hd, hp]
      simp
    rw [h1, exc_bind_ok]
    have h2 := ih
      { s with
        refStatuses := s.refStatuses ++ [pyStrip l],
        refStatusOk := s.refStatusOk
          && (ascii "ok ").isPrefixOf (pyStrip l) } hd hp
    rw [h2]
    simp [List.foldl_cons, List.append_assoc]

theorem check_unfold_err (p : RSParser)
    (h1 : p.packStatus = some (ascii "unpack ok"))
    (h2 : p.refStatusOk = false) :
    p.check = .error (.updateRefsError
      (((p.refStatuses.foldl checkFold ([], [])).1.map Prod.fst).filter
        (fun r => !((p.refStatuses.foldl checkFold ([], [])).2.contains r)))
      (p.refStatuses.foldl checkFold ([], [])).1) := by
  unfold RSParser.check
  rw [h1, h2]
  simp

/-! ### C10 -/

/-- C10: if `ReportStatusParser.check()` is called when the stored pack
status is still unset and no ref-status line was recorded as failing, it
returns silently — a missing unpack status is treated as success. -/
theorem c10_check_silent_when_unset (p : RSParser)
    (h1 : p.packStatus = none) (h2 : p.refStatusOk = true) :
    p.check = .ok () := by
  unfold RSParser.check
  rw [h1, h2]
  simp

/-- Witness for C10 at the freshly constructed parser. -/
theorem c10_check_silent_when_unset_witness :
    RSParser.check RSParser.mkInit = .ok () :=
  c10_check_silent_when_unset RSParser.mkInit rfl rfl

/-! ### C7 -/

set_option maxHeartbeats 2000000 in
/-- C7: `commit_tree` on `[("a/b", H1, 0o100644), ("a/c", H2, 0o100755)]`
returns the id of a root tree whose single entry `"a"` carries directory
mode and points at the subtree holding `"b"` (mode `0o100644`) and `"c"`
(mode `0o100755`); the swapped input order yields the identical root
id. -/
theorem c7_commit_tree_shape_and_order (H1 H2 : Bytes) :
    commitTreeRoot [(ascii "a/b", H1, 33188), (ascii "a/c", H2, 33261)] =
      some (TreeObj.id ⟨[(ascii "a", S_IFDIR,
        TreeObj.id ⟨[(ascii "b", 33188, H1), (ascii "c", 33261, H2)]⟩)]⟩) ∧
    commitTreeRoot [(ascii "a/c", H2, 33261), (ascii "a/b", H1, 33188)] =
      commitTreeRoot [(ascii "a/b", H1, 33188), (ascii "a/c", H2, 33261)] := by
  constructor
  · rfl
  · rfl

/-! ### C5 -/

/-- C5 counterexample: after `unpack ok`, a space-free ref-status line and
the flush, `check()` does *not* return silently — it raises an
update-rejected error (with an empty mapping), because any line that does
not start with `ok ` marks the ref status as failing even when it is later
skipped as malformed. -/
theorem c5_counterexample :
    checkAfter [some (ascii "unpack ok"), some (ascii "garbage"), none] =
      .error (.updateRefsError [] []) := rfl

/-- C5 amended: with `unpack ok`, any nonempty sequence of space-free
ref-status lines, and a flush, `check()` raises an update-rejected error
whose failing-ref list and ref-status mapping are both empty — the
malformed lines are skipped when building the payload, but their presence
is still fatal. -/
theorem c5_amended_malformed_fatal_but_skipped (lines : List Bytes)
    (hne : lines ≠ []) (hsp : ∀ l ∈ lines, 32 ∉ pyStrip l) :
    checkAfter (some (ascii "unpack ok") :: lines.map some ++ [none]) =
      .error (.updateRefsError [] []) := by
  have hok : lines.foldl
      (fun b l => b && (ascii "ok ").isPrefixOf (pyStrip l)) true = false :=
    foldl_and_all_false lines _ true hne
      (fun l hl => not_ok_prefixed_of_no_space (pyStrip l) (hsp l hl))
  have hstate : checkAfter
        (some (ascii "unpack ok") :: lines.map some ++ [none]) =
      RSParser.check
        { done := true, packStatus := some (ascii "unpack ok"),
          refStatusOk := lines.foldl
            (fun b l => b && (ascii "ok ").isPrefixOf (pyStrip l)) true,
          refStatuses := [] ++ lines.map pyStrip } := by
    unfold checkAfter runPackets
    rw [List.foldlM_append, List.foldlM_cons]
    have h0 : RSParser.handlePacket RSParser.mkInit
        (some (ascii "unpack ok")) =
        .ok { done := false, packStatus := some (ascii "unpack ok"),
              refStatusOk := true, refStatuses := [] } := rfl
    rw [h0, exc_bind_ok,
      foldlM_handlePacket_somes lines _ rfl (ascii "unpack ok") rfl,
      exc_bind_ok]
    rfl
  rw [hstate, hok]
  rw [check_unfold_err _ rfl rfl]
  rw [List.nil_append,
    foldl_checkFold_no_space (lines.map pyStrip) ([], [])
      (by
        intro x hx
        obtain ⟨l, hl, rfl⟩ := List.mem_map.mp hx
        exact hasSpace_eq_false_of_not_mem _ (hsp l hl))]
  rfl

/-- Witness for the amended C5 at a concrete malformed line. -/
theorem c5_amended_malformed_fatal_but_skipped_witness :
    checkAfter (some (ascii "unpack ok")
        :: [ascii "garbled"].map some ++ [none]) =
      .error (.updateRefsError [] []) :=
  c5_amended_malformed_fatal_but_skipped [ascii "garbled"]
    (by decide) (by decide)

/-! ### C1 -/

/-- C1 counterexample: on the spec's own example input the update-rejected
error's ref-status mapping does *not* omit `refs/heads/a` — it maps it to
`ok` (only the error message filters the succeeded refs out). -/
theorem c1_counterexample :
    alGet (errRefStatus (checkAfter [some (ascii "unpack ok"),
        some (ascii "ok refs/heads/a"), some (ascii "ng refs/heads/b bad"),
        none])) (ascii "refs/heads/a") = some (ascii "ok") ∧
    checkAfter [some (ascii "unpack ok"), some (ascii "ok refs/heads/a"),
        some (ascii "ng refs/heads/b bad"), none] =
      .error (.updateRefsError [ascii "refs/heads/b"]
        [(ascii "refs/heads/a", ascii "ok"),
         (ascii "refs/heads/b", ascii "bad")]) := by
  constructor
  · rfl
  · rfl

theorem getLastD_append_right (l r : Bytes) (h : r ≠ []) :
    (l ++ r).getLastD 0 = r.getLastD 0 := by
  rw [List.getLastD_eq_getLast?, List.getLastD_eq_getLast?,
    List.getLast?_append]
  cases hr : r.getLast? with
  | none => exact absurd (List.getLast?_eq_none_iff.mp hr) h
  | some x => rfl

theorem dropWhile_eq_self_of_head (p : Nat → Bool) (l : Bytes)
    (h : p (l.headD 0) = false) (hne : l ≠ []) : l.dropWhile p = l := by
  cases l with
  | nil => exact absurd rfl hne
  | cons a t => simp_all [List.dropWhile_cons]

theorem pyStrip_id_of_edges (l : Bytes) (h1 : l ≠ [])
    (hh : isPySpace (l.headD 0) = false)
    (hl : isPySpace (l.getLastD 0) = false) : pyStrip l = l := by
  unfold pyStrip lstripPy rstripPy
  rw [dropWhile_eq_self_of_head _ l hh h1]
  rw [dropWhile_eq_self_of_head _ l.reverse _ _, List.reverse_reverse]
  · rw [show l.reverse.headD 0 = l.getLastD 0 from ?_]
    · exact hl
    · rw [List.headD_eq_head?_getD, List.head?_reverse,
        List.getLastD_eq_getLast?]
  · simpa using h1

theorem ascii_ng_sp : ascii "ng " = [110, 103, 32] := rfl

theorem strip_render_id (l : RefLine) (h : wfRefLine l = true) :
    pyStrip (renderRefLine l) = renderRefLine l := by
  cases l with
  | okL r =>
    simp only [wfRefLine, Bool.and_eq_true, Bool.not_eq_true'] at h
    apply pyStrip_id_of_edges
    · simp [renderRefLine, ascii_ok_sp]
    · simp only [renderRefLine, ascii_ok_sp]
      rfl
    · simp only [renderRefLine, ascii_ok_sp]
      rw [getLastD_append_right _ r (by simpa using h.1.1)]
      exact h.2
  | ngL r s =>
    simp only [wfRefLine, Bool.and_eq_true, Bool.not_eq_true'] at h
    apply pyStrip_id_of_edges
    · simp [renderRefLine, ascii_ng_sp]
    · simp only [renderRefLine, ascii_ng_sp]
      rfl
    · simp only [renderRefLine, ascii_ng_sp]
      rw [List.append_assoc, List.append_assoc,
        getLastD_append_right _ (r ++ ([32] ++ s)) (by simp),
        getLastD_append_right _ ([32] ++ s) (by simp),
        getLastD_append_right _ s (by simpa using h.1.2)]
      exact h.2

theorem hasSpace_okline (r : Bytes) : hasSpace (ascii "ok " ++ r) = true := by
  simp [hasSpace, ascii_ok_sp, List.elem_eq_mem]

theorem splitFirstSpace_okline (r : Bytes) :
    splitFirstSpace (ascii "ok " ++ r) = (ascii "ok", r) := by
  rw [ascii_ok_sp]
  rfl

theorem hasSpace_ngline (r s : Bytes) :
    hasSpace (ascii "ng " ++ r ++ [32] ++ s) = true := by
  simp [hasSpace, ascii_ng_sp, List.elem_eq_mem]

theorem splitFirstSpace_ngline (r s : Bytes) :
    splitFirstSpace (ascii "ng " ++ r ++ [32] ++ s) =
      (ascii "ng", r ++ [32] ++ s) := by
  rw [ascii_ng_sp]
  rfl

theorem hasSpace_mid (r s : Bytes) : hasSpace (r ++ [32] ++ s) = true := by
  simp [hasSpace, List.elem_eq_mem]

theorem splitFirstSpace_no32 (r s : Bytes) (h : 32 ∉ r) :
    splitFirstSpace (r ++ [32] ++ s) = (r, s) := by
  induction r with
  | nil => rfl
  | cons a t ih =>
    simp only [List.mem_cons, not_or] at h
    have ha : (a == 32) = false := by
      rw [beq_eq_false_iff_ne]
      exact fun e => h.1 e.symm
    simp only [List.cons_append, splitFirstSpace, ha, Bool.false_eq_true,
      if_false, List.append_eq]
    rw [ih h.2]

theorem beq_okng : (ascii "ok" == ascii "ng") = false := rfl

theorem beq_ngng : (ascii "ng" == ascii "ng") = true := rfl

theorem checkFold_okline (m : List (Bytes × Bytes)) (o : List Bytes)
    (r : Bytes) :
    checkFold (m, o) (renderRefLine (.okL r)) =
      (alSet m r (ascii "ok"), if o.contains r then o else o ++ [r]) := by
  simp only [checkFold, renderRefLine, hasSpace_okline,
    splitFirstSpace_okline, beq_okng, Bool.false_eq_true, if_false, if_true]

theorem checkFold_ngline (m : List (Bytes × Bytes)) (o : List Bytes)
    (r s : Bytes) (h : 32 ∉ r) :
    checkFold (m, o) (renderRefLine (.ngL r s)) = (alSet m r s, o) := by
  simp only [checkFold, renderRefLine, hasSpace_ngline,
    splitFirstSpace_ngline, beq_ngng, if_true, hasSpace_mid,
    splitFirstSpace_no32 r s h]

theorem contains_eq_decide_mem {α : Type} [BEq α] [LawfulBEq α]
    (l : List α) (x : α) : l.contains x = decide (x ∈ l) :=
  List.elem_eq_mem x l

theorem foldl_and_exists_false (xs : List Bytes) (f : Bytes → Bool)
    (b : Bool) (h : ∃ x ∈ xs, f x = false) :
    xs.foldl (fun acc x => acc && f x) b = false := by
  induction xs generalizing b with
  | nil => simp at h
  | cons x rest ih =>
    obtain ⟨y, hy, hfy⟩ := h
    rcases List.mem_cons.mp hy with rfl | hyr
    · rw [List.foldl_cons, hfy, Bool.and_false]
      exact foldl_and_false rest f
    · exact ih (b && f x) ⟨y, hyr, hfy⟩

theorem ng_render_not_okpfx (r s : Bytes) :
    (ascii "ok ").isPrefixOf (renderRefLine (.ngL r s)) = false := rfl

theorem foldl_checkFold_renders (specs : List RefLine)
    (m : List (Bytes × Bytes)) (o : List Bytes)
    (hwf : ∀ l ∈ specs, wfRefLine l = true)
    (hnd : (specs.map refOf).Nodup)
    (hm : ∀ l ∈ specs, refOf l ∉ m.map Prod.fst)
    (ho : ∀ l ∈ specs, refOf l ∉ o) :
    (specs.map renderRefLine).foldl checkFold (m, o) =
      (m ++ specs.map pairOf, o ++ okRefs specs) := by
  induction specs generalizing m o with
  | nil => simp [okRefs]
  | cons l rest ih =>
    rw [List.map_cons] at hnd
    have hndh : refOf l ∉ rest.map refOf := (List.nodup_cons.mp hnd).1
    have hndt : (rest.map refOf).Nodup := (List.nodup_cons.mp hnd).2
    have hwfr : ∀ l' ∈ rest, wfRefLine l' = true :=
      fun l' hl' => hwf l' (by simp [hl'])
    have hmemr : ∀ l' ∈ rest, refOf l' ∈ rest.map refOf :=
      fun l' hl' => List.mem_map_of_mem refOf hl'
    cases l with
    | okL r =>
      rw [List.map_cons, List.foldl_cons, checkFold_okline]
      have hoc : o.contains r = false := by
        rw [contains_eq_decide_mem, decide_eq_false_iff_not]
        exact ho (.okL r) (by simp)
      rw [hoc]
      simp only [Bool.false_eq_true, if_false]
      rw [alSet_append_of_not_mem m r _ (hm (.okL r) (by simp))]
      rw [ih (m ++ [(r, ascii "ok")]) (o ++ [r]) hwfr hndt
        (by
          intro l' hl'
          simp only [List.map_append, List.map_cons, List.map_nil,
            List.mem_append, List.mem_cons, List.not_mem_nil, or_false,
            not_or]
          exact ⟨hm l' (by simp [hl']), fun e => hndh (e ▸ hmemr l' hl')⟩)
        (by
          intro l' hl'
          simp only [List.mem_append, List.mem_cons, List.not_mem_nil,
            or_false, not_or]
          exact ⟨ho l' (by simp [hl']), fun e => hndh (e ▸ hmemr l' hl')⟩)]
      simp [pairOf, okRefs, List.append_assoc]
    | ngL r s =>
      have h32 : 32 ∉ r := by
        have hw := hwf (.ngL r s) (by simp)
        simp only [wfRefLine, Bool.and_eq_true, Bool.not_eq_true'] at hw
        have hc := hw.1.1.2
        rw [contains_eq_decide_mem] at hc
        exact of_decide_eq_false hc
      rw [List.map_cons, List.foldl_cons, checkFold_ngline m o r s h32]
      rw [alSet_append_of_not_mem m r _ (hm (.ngL r s) (by simp))]
      rw [ih (m ++ [(r, s)]) o hwfr hndt
        (by
          intro l' hl'
          simp only [List.map_append, List.map_cons, List.map_nil,
            List.mem_append, List.mem_cons, List.not_mem_nil, or_false,
            not_or]
          exact ⟨hm l' (by simp [hl']), fun e => hndh (e ▸ hmemr l' hl')⟩)
        (fun l' hl' => ho l' (by simp [hl']))]
      simp [pairOf, okRefs, List.append_assoc]

theorem checkAfter_unpack_state (lines : List Bytes) :
    checkAfter (some (ascii "unpack ok") :: lines.map some ++ [none]) =
      RSParser.check
        { done := true, packStatus := some (ascii "unpack ok"),
          refStatusOk := lines.foldl
            (fun b l => b && (ascii "ok ").isPrefixOf (pyStrip l)) true,
          refStatuses := [] ++ lines.map pyStrip } := by
  unfold checkAfter runPackets
  rw [List.foldlM_append, List.foldlM_cons]
  have h0 : RSParser.handlePacket RSParser.mkInit
      (some (ascii "unpack ok")) =
      .ok { done := false, packStatus := some (ascii "unpack ok"),
            refStatusOk := true, refStatuses := [] } := rfl
  rw [h0, exc_bind_ok,
    foldlM_handlePacket_somes lines _ rfl (ascii "unpack ok") rfl,
    exc_bind_ok]
  rfl

theorem map_fst_pairOf (specs : List RefLine) :
    (specs.map pairOf).map Prod.fst = specs.map refOf := by
  rw [List.map_map]
  exact List.map_congr_left (fun l _ => by cases l <;> rfl)

theorem filter_not_oks_eq_ng (specs : List RefLine) (oks : List Bytes)
    (hok : ∀ l ∈ specs, isNgLine l = false → refOf l ∈ oks)
    (hng : ∀ l ∈ specs, isNgLine l = true → refOf l ∉ oks) :
    (specs.map refOf).filter (fun r => !(oks.contains r)) = ngRefs specs := by
  induction specs with
  | nil => rfl
  | cons l rest ih =>
    have ihr := ih (fun l' h' hn => hok l' (by simp [h']) hn)
      (fun l' h' hn => hng l' (by simp [h']) hn)
    cases l with
    | okL r =>
      have hc : oks.contains r = true := by
        rw [contains_eq_decide_mem, decide_eq_true_eq]
        exact hok (.okL r) (by simp) rfl
      simp only [List.map_cons, List.filter_cons, refOf, hc,
        Bool.not_true, Bool.false_eq_true, if_false]
      simpa [ngRefs] using ihr
    | ngL r s =>
      have hc : oks.contains r = false := by
        rw [contains_eq_decide_mem, decide_eq_false_iff_not]
        exact hng (.ngL r s) (by simp) rfl
      simp only [List.map_cons, List.filter_cons, refOf, hc,
        Bool.not_false, if_true]
      simp only [ngRefs, List.filterMap_cons]
      simpa [ngRefs] using ihr

/-- C1 amended: after `unpack ok`, well-formed `ok`/`ng` ref-status lines
over distinct refs with at least one `ng`, and a flush, `check()` raises
an update-rejected error whose ref-status mapping records *every* line —
each `ng` ref mapped to its reason and each `ok` ref mapped to `ok` — and
whose failing-ref list (the message) contains exactly the `ng` refs. -/
theorem c1_amended_payload_keeps_ok_refs (specs : List RefLine)
    (hwf : ∀ l ∈ specs, wfRefLine l = true)
    (hnd : (specs.map refOf).Nodup)
    (hng : ∃ l ∈ specs, isNgLine l = true) :
    checkAfter (some (ascii "unpack ok")
        :: specs.map (fun l => some (renderRefLine l)) ++ [none]) =
      .error (.updateRefsError (ngRefs specs) (specs.map pairOf)) := by
  have hmap : specs.map (fun l => some (renderRefLine l)) =
      (specs.map renderRefLine).map some := by
    rw [List.map_map]
    rfl
  rw [hmap, checkAfter_unpack_state]
  have hstrip : (specs.map renderRefLine).map pyStrip =
      specs.map renderRefLine := by
    have hc : ∀ x ∈ specs.map renderRefLine, pyStrip x = id x := by
      intro x hx
      obtain ⟨l, hl, rfl⟩ := List.mem_map.mp hx
      exact strip_render_id l (hwf l hl)
    rw [List.map_congr_left hc, List.map_id]
  have hfal : (specs.map renderRefLine).foldl
      (fun b l => b && (ascii "ok ").isPrefixOf (pyStrip l)) true = false := by
    obtain ⟨l, hl, hn⟩ := hng
    cases l with
    | okL r => simp [isNgLine] at hn
    | ngL r s =>
      apply foldl_and_exists_false
      refine ⟨renderRefLine (.ngL r s), List.mem_map_of_mem _ hl, ?_⟩
      rw [strip_render_id _ (hwf _ hl)]
      exact ng_render_not_okpfx r s
  rw [hfal, check_unfold_err _ rfl rfl]
  simp only [List.nil_append, hstrip]
  rw [foldl_checkFold_renders specs [] [] hwf hnd (by simp) (by simp)]
  simp only [List.nil_append, map_fst_pairOf]
  rw [filter_not_oks_eq_ng specs (okRefs specs)
    (by
      intro l hl hn
      cases l with
      | okL r => exact List.mem_filterMap.mpr ⟨.okL r, hl, rfl⟩
      | ngL r s => simp [isNgLine] at hn)
    (by
      intro l hl hn
      cases l with
      | okL r => simp [isNgLine] at hn
      | ngL r s =>
        intro hmem
        obtain ⟨l', hl', he⟩ := List.mem_filterMap.mp hmem
        cases l' with
        | ngL r' s' => simp [okRefs] at he
        | okL r' =>
          have hrr : r' = r := by simpa using he
          subst hrr
          have heq := List.inj_on_of_nodup_map hnd hl' hl (by rfl)
          simp at heq)]

/-- Witness for the amended C1 at the spec's example input. -/
theorem c1_amended_payload_keeps_ok_refs_witness :
    checkAfter (some (ascii "unpack ok")
        :: ([RefLine.okL (ascii "refs/heads/a"),
             RefLine.ngL (ascii "refs/heads/b") (ascii "bad")]).map
            (fun l => some (renderRefLine l)) ++ [none]) =
      .error (.updateRefsError
        (ngRefs [RefLine.okL (ascii "refs/heads/a"),
                 RefLine.ngL (ascii "refs/heads/b") (ascii "bad")])
        (([RefLine.okL (ascii "refs/heads/a"),
           RefLine.ngL (ascii "refs/heads/b") (ascii "bad")]).map pairOf)) :=
  c1_amended_payload_keeps_ok_refs _ (by decide) (by decide) (by decide)

/-! ### C4 -/

theorem two_pow_mul_testBit_low (n k i : Nat) (hi : i < n) :
    (2 ^ n * k).testBit i = false := by
  rw [Nat.testBit_to_div_mod]
  simp only [decide_eq_false_iff_not]
  have hdiv : 2 ^ n * k / 2 ^ i = 2 ^ (n - i) * k := by
    rw [show (2 : Nat) ^ n = 2 ^ i * 2 ^ (n - i) by
      rw [← pow_add]; congr 1; omega]
    rw [mul_assoc, Nat.mul_div_cancel_left _ (Nat.two_pow_pos i)]
  rw [hdiv]
  have h2 : 2 ∣ 2 ^ (n - i) * k :=
    Dvd.dvd.mul_right (dvd_pow_self 2 (by omega)) k
  omega

theorem lor_eq_add_of_disjoint (n a b : Nat) (ha : a < 2 ^ n)
    (hb : b % 2 ^ n = 0) : a ||| b = a + b := by
  obtain ⟨k, rfl⟩ : 2 ^ n ∣ b := Nat.dvd_of_mod_eq_zero hb
  apply Nat.eq_of_testBit_eq
  intro i
  rw [Nat.testBit_lor]
  rcases lt_or_ge i n with hi | hi
  · have hb0 : (2 ^ n * k).testBit i = false := two_pow_mul_testBit_low n k i hi
    have hab : (a + 2 ^ n * k).testBit i = a.testBit i := by
      rw [Nat.testBit_to_div_mod, Nat.testBit_to_div_mod]
      have h1 : (a + 2 ^ n * k) / 2 ^ i = a / 2 ^ i + 2 ^ (n - i) * k := by
        rw [show 2 ^ n * k = 2 ^ i * (2 ^ (n - i) * k) by
          rw [← mul_assoc, ← pow_add]; congr 2; omega]
        exact Nat.add_mul_div_left a _ (Nat.two_pow_pos i)
      rw [h1]
      have h2 : 2 ∣ 2 ^ (n - i) * k :=
        Dvd.dvd.mul_right (dvd_pow_self 2 (by omega)) k
      have h3 : (a / 2 ^ i + 2 ^ (n - i) * k) % 2 = a / 2 ^ i % 2 := by omega
      rw [h3]
    rw [hab, hb0, Bool.or_false]
  · have ha0 : a.testBit i = false := by
      rw [Nat.testBit_to_div_mod]
      simp only [decide_eq_false_iff_not]
      rw [Nat.div_eq_of_lt
        (lt_of_lt_of_le ha (Nat.pow_le_pow_right (by norm_num) hi))]
      omega
    have hab : (a + 2 ^ n * k).testBit i = (2 ^ n * k).testBit i := by
      rw [Nat.testBit_to_div_mod, Nat.testBit_to_div_mod]
      have h1 : (a + 2 ^ n * k) / 2 ^ i = 2 ^ n * k / 2 ^ i := by
        rw [show (2 : Nat) ^ i = 2 ^ n * 2 ^ (i - n) by
          rw [← pow_add]; congr 1; omega]
        rw [← Nat.div_div_eq_div_mul, ← Nat.div_div_eq_div_mul]
        congr 1
        rw [Nat.add_mul_div_left a k (Nat.two_pow_pos n),
          Nat.div_eq_of_lt ha, Nat.mul_div_cancel_left k (Nat.two_pow_pos n)]
        omega
      rw [h1]
    rw [hab, ha0, Bool.false_or]

theorem flags_lor_eq_add (len f : Nat) (hlen : len ≤ 4095) :
    Nat.lor len (f - f % 4096) = len + (f - f % 4096) := by
  apply lor_eq_add_of_disjoint 12
  · omega
  · omega

theorem pack32_eq_ok (n : Nat) (h : n < 4294967296) :
    pack32 n = .ok (pack32v n) := by
  simp [pack32, pack32v, h]

theorem pack16_eq_ok (n : Nat) (h : n < 65536) :
    pack16 n = .ok (pack16v n) := by
  simp [pack16, pack16v, h]

theorem writeCacheTime_eq_ok (t : Nat × Nat) (h1 : t.1 < 4294967296)
    (h2 : t.2 < 4294967296) :
    writeCacheTime t = .ok (pack32v t.1 ++ pack32v t.2) := by
  unfold writeCacheTime
  rw [pack32_eq_ok t.1 h1, exc_bind_ok, pack32_eq_ok t.2 h2, exc_bind_ok]

theorem pack32v_length (n : Nat) : (pack32v n).length = 4 := rfl

theorem pack16v_length (n : Nat) : (pack16v n).length = 2 := rfl

theorem pack20s_length_of_20 (s : Bytes) (h : s.length = 20) :
    (pack20s s).length = 20 := by
  simp [pack20s, List.length_take, h]

theorem storedFlags_lt (e : IndexEntry) (hf : e.2.flags < 65536)
    (hn : e.1.length ≤ 4095) : storedFlags e < 65536 := by
  unfold storedFlags
  rw [flags_lor_eq_add _ _ hn]
  omega

theorem pad_count_eq (x : Nat) : alignDown8 (x + 8) - x = 8 - x % 8 := by
  unfold alignDown8
  have h := Nat.add_mod_right x 8
  omega

theorem writeCacheEntry_eq (pre : Bytes) (e : IndexEntry)
    (h : entryInRange e) (hn : e.1.length ≤ 4095) :
    writeCacheEntry pre e = .ok (pre ++ recordBytes e) := by
  obtain ⟨h1, h2, h3, h4, h5, h6, h7, h8, h9, h10, h11, h12⟩ := h
  have hfl : Nat.lor e.1.length (e.2.flags - e.2.flags % 4096) < 65536 :=
    storedFlags_lt e h11 hn
  simp only [writeCacheEntry,
    writeCacheTime_eq_ok e.2.ctime h1 h2, exc_bind_ok,
    writeCacheTime_eq_ok e.2.mtime h3 h4, exc_bind_ok,
    pack32_eq_ok e.2.dev h5, exc_bind_ok,
    pack32_eq_ok e.2.ino h6, exc_bind_ok,
    pack32_eq_ok e.2.mode h7, exc_bind_ok,
    pack32_eq_ok e.2.uid h8, exc_bind_ok,
    pack32_eq_ok e.2.gid h9, exc_bind_ok,
    pack32_eq_ok e.2.size h10, exc_bind_ok,
    pack16_eq_ok _ hfl, exc_bind_ok]
  have hbody :
      (pre ++ (pack32v e.2.ctime.1 ++ pack32v e.2.ctime.2)
        ++ (pack32v e.2.mtime.1 ++ pack32v e.2.mtime.2)
        ++ pack32v e.2.dev ++ pack32v e.2.ino ++ pack32v e.2.mode
        ++ pack32v e.2.uid ++ pack32v e.2.gid ++ pack32v e.2.size
        ++ pack20s e.2.sha ++ pack16v (Nat.lor e.1.length
            (e.2.flags - e.2.flags % 4096))
        ++ utf8Encode e.1).length = pre.length + 62 + (utf8Encode e.1).length := by
    simp [List.length_append, pack32v_length, pack16v_length,
      pack20s_length_of_20 e.2.sha h12]
    omega
  rw [hbody]
  have hcount : pre.length + alignDown8
        (pre.length + 62 + (utf8Encode e.1).length - pre.length + 8)
      - (pre.length + 62 + (utf8Encode e.1).length)
      = 8 - (62 + (utf8Encode e.1).length) % 8 := by
    have := pad_count_eq (62 + (utf8Encode e.1).length)
    have hm : pre.length + 62 + (utf8Encode e.1).length - pre.length
        = 62 + (utf8Encode e.1).length := by omega
    rw [hm]
    unfold alignDown8 at this ⊢
    omega
  rw [hcount]
  simp only [recordBytes, storedFlags, List.append_assoc]

theorem recordBytes_split (e : IndexEntry) (hsha : e.2.sha.length = 20) :
    ∃ front : Bytes, recordBytes e = front
        ++ List.replicate (8 - (62 + (utf8Encode e.1).length) % 8) 0
      ∧ front.length = 62 + (utf8Encode e.1).length := by
  refine ⟨pack32v e.2.ctime.1 ++ pack32v e.2.ctime.2
    ++ pack32v e.2.mtime.1 ++ pack32v e.2.mtime.2
    ++ pack32v e.2.dev ++ pack32v e.2.ino ++ pack32v e.2.mode
    ++ pack32v e.2.uid ++ pack32v e.2.gid ++ pack32v e.2.size
    ++ pack20s e.2.sha ++ pack16v (storedFlags e)
    ++ utf8Encode e.1, ?_, ?_⟩
  · simp [recordBytes, List.append_assoc]
  · simp [List.length_append, pack32v_length, pack16v_length,
      pack20s_length_of_20 e.2.sha hsha]
    omega

/-- C4 counterexample: for a record whose unpadded length 62 + 2 = 64 is
already a multiple of 8, `write_cache_entry` emits *eight* NUL padding
bytes (total record length 72), not the zero bytes the claim states. -/
theorem c4_counterexample :
    (writeCacheEntry [] c4entry).map List.length = .ok 72 ∧
    (writeCacheEntry [] c4entry).map (fun l => l.drop 64) =
      .ok (List.replicate 8 0) ∧
    (62 + (utf8Encode c4entry.1).length) % 8 = 0 := by
  refine ⟨rfl, rfl, rfl⟩

/-- C4 amended: every record `write_cache_entry` emits has, measured from
its own start, a total length that is a multiple of 8, and ends in between
one and eight NUL padding bytes; when the unpadded length (62-byte fixed
header plus path bytes) is already a multiple of 8 the record carries
exactly *eight* padding bytes, never zero. -/
theorem c4_amended_padding_one_to_eight (pre : Bytes) (e : IndexEntry)
    (h : entryInRange e) (hn : e.1.length ≤ 4095) :
    writeCacheEntry pre e = .ok (pre ++ recordBytes e) ∧
    (recordBytes e).length % 8 = 0 ∧
    (recordBytes e).drop (62 + (utf8Encode e.1).length) =
      List.replicate (8 - (62 + (utf8Encode e.1).length) % 8) 0 ∧
    1 ≤ 8 - (62 + (utf8Encode e.1).length) % 8 ∧
    ((62 + (utf8Encode e.1).length) % 8 = 0 →
      (recordBytes e).drop (62 + (utf8Encode e.1).length) =
        List.replicate 8 0) := by
  obtain ⟨front, hsplit, hlen⟩ := recordBytes_split e h.2.2.2.2.2.2.2.2.2.2.2
  have hdrop : (recordBytes e).drop (62 + (utf8Encode e.1).length) =
      List.replicate (8 - (62 + (utf8Encode e.1).length) % 8) 0 := by
    rw [hsplit, ← hlen, List.drop_left]
  refine ⟨writeCacheEntry_eq pre e h hn, ?_, hdrop, ?_, ?_⟩
  · rw [hsplit]
    simp only [List.length_append, List.length_replicate, hlen]
    omega
  · omega
  · intro hz
    rw [hdrop, hz]

/-- Witness for the amended C4 at a concrete entry. -/
theorem c4_amended_padding_one_to_eight_witness :
    writeCacheEntry [] c4entry = .ok ([] ++ recordBytes c4entry) ∧
    (recordBytes c4entry).length % 8 = 0 :=
  ⟨(c4_amended_padding_one_to_eight [] c4entry (by decide) (by decide)).1,
   (c4_amended_padding_one_to_eight [] c4entry (by decide) (by decide)).2.1⟩

/-! ### C3 -/

theorem exc_bind_eq_ok {α β : Type} {x : Except GErr α}
    {f : α → Except GErr β} {b : β} (h : (x >>= f) = .ok b) :
    ∃ a, x = .ok a ∧ f a = .ok b := by
  cases x with
  | ok a => exact ⟨a, rfl, h⟩
  | error e => exact absurd h (by simp [Bind.bind, Except.bind])

theorem sendPackTraditional_negotiated (stream : List Pkt) (raw : Bytes)
    (dw : RefMap → Option RefMap) (gen : List Bytes → List Bytes → List Nat)
    (out : SendRes) (rr : ReadRefsOut) (sc : List Bytes)
    (hrr : readRefs stream = .ok rr) (hc : rr.caps = some sc)
    (h : sendPackTraditional stream raw dw gen = .ok out) :
    out.negotiated = if sc.contains (ascii "report-status")
      then SEND_CAPABILITIES
      else SEND_CAPABILITIES.erase (ascii "report-status") := by
  unfold sendPackTraditional at h
  rw [hrr, exc_bind_ok, hc] at h
  dsimp only at h
  cases hdw : dw rr.refs with
  | none =>
    rw [hdw] at h
    dsimp only at h
    cases h
    rfl
  | some newRefs =>
    rw [hdw] at h
    dsimp only at h
    cases hcont : sc.contains (ascii "report-status") with
    | true =>
      rw [hcont] at h
      repeat' split at h
      all_goals
        first
          | (exact absurd rfl (by assumption))
          | (exact absurd (show false = true by assumption) (by simp))
          | (cases h; simp [hcont])
          | (obtain ⟨pg, _, h2⟩ := exc_bind_eq_ok h; cases h2; simp [hcont])
    | false =>
      rw [hcont] at h
      repeat' split at h
      all_goals
        first
          | (exact absurd rfl (by assumption))
          | (exact absurd (show false = true by assumption) (by simp))
          | (cases h; simp [hcont])
          | (obtain ⟨pg, _, h2⟩ := exc_bind_eq_ok h; cases h2; simp [hcont])

theorem httpSendPack_negotiated (code : Nat) (dumb : Bool)
    (advStream : List Pkt) (dw : RefMap → Option RefMap)
    (gen : List Bytes → List Bytes → List Nat) (respCode : Nat)
    (contentTypeOk : Bool) (respStream : List Pkt) (respRaw : Bytes)
    (out : SendRes)
    (h : httpSendPack code dumb advStream dw gen respCode contentTypeOk
      respStream respRaw = .ok out) :
    out.negotiated = SEND_CAPABILITIES := by
  cases dumb with
  | true =>
    unfold httpSendPack at h
    obtain ⟨rr, hrr, h⟩ := exc_bind_eq_ok h
    dsimp only at h
    cases hdw : dw rr.refs with
    | none =>
      rw [hdw] at h
      dsimp only at h
      cases h
      rfl
    | some newRefs =>
      rw [hdw] at h
      dsimp only at h
      cases h
  | false =>
    unfold httpSendPack at h
    obtain ⟨rr, hrr, h⟩ := exc_bind_eq_ok h
    dsimp only at h
    cases hdw : dw rr.refs with
    | none =>
      rw [hdw] at h
      dsimp only at h
      cases h
      rfl
    | some newRefs =>
      rw [hdw] at h
      dsimp only at h
      rw [if_neg (by simp)] at h
      by_cases hc1 : (handleReceivePackHead SEND_CAPABILITIES rr.refs
          newRefs).wantIds.isEmpty = true ∧ refMapEqB rr.refs newRefs = true
      · rw [if_pos hc1] at h
        cases h
        rfl
      · rw [if_neg hc1] at h
        by_cases hc2 : (respCode == 404) = true
        · rw [if_pos hc2] at h
          cases h
        · rw [if_neg hc2] at h
          by_cases hc3 : respCode ≠ 200
          · rw [if_pos hc3] at h
            cases h
          · rw [if_neg hc3] at h
            by_cases hc4 : (!contentTypeOk) = true
            · rw [if_pos hc4] at h
              cases h
            · rw [if_neg hc4] at h
              obtain ⟨pg, _, h2⟩ := exc_bind_eq_ok h
              cases h2
              rfl

/-- C3 counterexample: over the HTTP transport, a push against a server
that does NOT advertise `report-status` still negotiates the full default
send-capability list — `report-status` is never removed there. -/
theorem c3_counterexample :
    (httpSendPack 200 false httpAdvNoRS (fun _ => none) (fun _ _ => [])
        200 true [] []).map SendRes.negotiated = .ok SEND_CAPABILITIES ∧
    (discoverReferences (ascii "git-receive-pack") 200 false
        httpAdvNoRS).map ReadRefsOut.caps = .ok (some []) ∧
    SEND_CAPABILITIES.contains (ascii "report-status") = true ∧
    SEND_CAPABILITIES ≠ SEND_CAPABILITIES.erase (ascii "report-status") := by
  exact ⟨rfl, rfl, rfl, by decide⟩

/-- C3 amended: the traditional (TCP/SSH/subprocess) client negotiates the
default send-capability list with `report-status` removed exactly when the
server did not advertise it; the HTTP client uses the default list
unchanged, whatever the server advertised. -/
theorem c3_amended_http_keeps_default :
    (∀ (stream : List Pkt) (raw : Bytes) (dw : RefMap → Option RefMap)
      (gen : List Bytes → List Bytes → List Nat) (out : SendRes)
      (rr : ReadRefsOut) (sc : List Bytes),
      readRefs stream = .ok rr → rr.caps = some sc →
      sendPackTraditional stream raw dw gen = .ok out →
      out.negotiated = if sc.contains (ascii "report-status")
        then SEND_CAPABILITIES
        else SEND_CAPABILITIES.erase (ascii "report-status")) ∧
    (∀ (code : Nat) (dumb : Bool) (advStream : List Pkt)
      (dw : RefMap → Option RefMap)
      (gen : List Bytes → List Bytes → List Nat) (respCode : Nat)
      (contentTypeOk : Bool) (respStream : List Pkt) (respRaw : Bytes)
      (out : SendRes),
      httpSendPack code dumb advStream dw gen respCode contentTypeOk
        respStream respRaw = .ok out →
      out.negotiated = SEND_CAPABILITIES) :=
  ⟨fun stream raw dw gen out rr sc hrr hc h =>
    sendPackTraditional_negotiated stream raw dw gen out rr sc hrr hc h,
   fun code dumb advStream dw gen respCode cto respStream respRaw out h =>
    httpSendPack_negotiated code dumb advStream dw gen respCode cto
      respStream respRaw out h⟩

/-- Witness for the amended C3 at concrete advertisements. -/
theorem c3_amended_http_keeps_default_witness :
    SendRes.negotiated
        { negotiated := SEND_CAPABILITIES.erase (ascii "report-status"),
          written := [none], packObjects := none, packWritten := false,
          progressData := [],
          refs := [(ascii "refs/heads/master",
            ascii "1111111111111111111111111111111111111111")] } =
      SEND_CAPABILITIES.erase (ascii "report-status") ∧
    SendRes.negotiated
        { negotiated := SEND_CAPABILITIES, written := [],
          packObjects := none, packWritten := false, progressData := [],
          refs := [(ascii "refs/heads/master",
            ascii "1111111111111111111111111111111111111111")] } =
      SEND_CAPABILITIES :=
  ⟨c3_amended_http_keeps_default.1 tradAdvNoRS [] (fun _ => none)
      (fun _ _ => []) _ _ [] rfl rfl rfl,
   c3_amended_http_keeps_default.2 200 false httpAdvNoRS (fun _ => none)
      (fun _ _ => []) 200 true [] [] _ rfl⟩

/-! ### C8 -/

theorem fetchPackTraditional_empty_wants (stream : List Pkt) (raw : Bytes)
    (dw : RefMap → List Bytes) (haves : List Bytes) (canRead : Nat → Bool)
    (thinPacks : Bool) (rr : ReadRefsOut)
    (hrr : readRefs stream = .ok rr) (hdw : dw rr.refs = []) :
    fetchPackTraditional stream raw dw haves canRead thinPacks =
      .ok ⟨[none], rr.refs, [], [], []⟩ := by
  unfold fetchPackTraditional
  rw [hrr, exc_bind_ok]
  dsimp only
  rw [hdw]
  rfl

theorem httpFetchPack_empty_wants (code : Nat) (dumb : Bool)
    (advStream : List Pkt) (dw : RefMap → List Bytes) (haves : List Bytes)
    (respStream : List Pkt) (respRaw : Bytes) (rr : ReadRefsOut)
    (sc : List Bytes)
    (hrr : discoverReferences (ascii "git-upload-pack") code dumb advStream
      = .ok rr)
    (hc : rr.caps = some sc) (hdw : dw rr.refs = []) :
    httpFetchPack code dumb advStream dw haves respStream respRaw =
      .ok ⟨[], rr.refs, [], [], []⟩ := by
  unfold httpFetchPack
  rw [hrr, exc_bind_ok, hc]
  dsimp only
  rw [hdw]
  rfl

/-- C8 counterexample: over HTTP, a fetch whose want-selection returns the
empty selection returns the advertised refs but writes *nothing* — no
flush packet is sent, contrary to the claim. -/
theorem c8_counterexample :
    (httpFetchPack 200 false httpAdvUpload (fun _ => []) [] [] []).map
        FetchRes.written = .ok [] ∧
    (httpFetchPack 200 false httpAdvUpload (fun _ => []) [] [] []).map
        FetchRes.refs =
      .ok [(ascii "refs/heads/master",
        ascii "1111111111111111111111111111111111111111")] := by
  exact ⟨rfl, rfl⟩

/-- C8 amended: when the want-selection function returns the empty
selection, no `want` or `have` line is written, no pack is exchanged, and
the advertised refs are returned unchanged; the traditional client writes
exactly one flush packet, while the HTTP client writes nothing at all. -/
theorem c8_amended_flush_only_traditional :
    (∀ (stream : List Pkt) (raw : Bytes) (dw : RefMap → List Bytes)
      (haves : List Bytes) (canRead : Nat → Bool) (thinPacks : Bool)
      (rr : ReadRefsOut),
      readRefs stream = .ok rr → dw rr.refs = [] →
      fetchPackTraditional stream raw dw haves canRead thinPacks =
        .ok ⟨[none], rr.refs, [], [], []⟩) ∧
    (∀ (code : Nat) (dumb : Bool) (advStream : List Pkt)
      (dw : RefMap → List Bytes) (haves : List Bytes)
      (respStream : List Pkt) (respRaw : Bytes) (rr : ReadRefsOut)
      (sc : List Bytes),
      discoverReferences (ascii "git-upload-pack") code dumb advStream
        = .ok rr →
      rr.caps = some sc → dw rr.refs = [] →
      httpFetchPack code dumb advStream dw haves respStream respRaw =
        .ok ⟨[], rr.refs, [], [], []⟩) :=
  ⟨fun stream raw dw haves canRead thinPacks rr hrr hdw =>
    fetchPackTraditional_empty_wants stream raw dw haves canRead thinPacks
      rr hrr hdw,
   fun code dumb advStream dw haves respStream respRaw rr sc hrr hc hdw =>
    httpFetchPack_empty_wants code dumb advStream dw haves respStream
      respRaw rr sc hrr hc hdw⟩

/-- Witness for the amended C8 at concrete advertisements. -/
theorem c8_amended_flush_only_traditional_witness :
    fetchPackTraditional tradAdvNoRS [] (fun _ => []) [] (fun _ => false)
        true =
      .ok ⟨[none],
        [(ascii "refs/heads/master",
          ascii "1111111111111111111111111111111111111111")], [], [], []⟩ ∧
    httpFetchPack 200 false httpAdvUpload (fun _ => []) [] [] [] =
      .ok ⟨[],
        [(ascii "refs/heads/master",
          ascii "1111111111111111111111111111111111111111")], [], [], []⟩ :=
  ⟨c8_amended_flush_only_traditional.1 tradAdvNoRS [] (fun _ => []) []
      (fun _ => false) true _ rfl rfl,
   c8_amended_flush_only_traditional.2 200 false httpAdvUpload
      (fun _ => []) [] [] [] _ [] rfl rfl rfl⟩

/-! ### C9 -/

theorem alGet_eq_none_of_not_mem {α : Type} (m : List (Bytes × α))
    (k : Bytes) (h : k ∉ m.map Prod.fst) : alGet m k = none := by
  induction m with
  | nil => rfl
  | cons p rest ih =>
    simp only [List.map_cons, List.mem_cons, not_or] at h
    unfold alGet
    rw [List.find?_cons_of_neg]
    · exact ih (by
        intro hm
        exact h.2 hm) |>.symm ▸ rfl
    · simp only [beq_iff_eq]
      exact fun e => h.1 e.symm

theorem alGet_mem_values {α : Type} (m : List (Bytes × α)) (k : Bytes)
    (v : α) (h : alGet m k = some v) : v ∈ m.map Prod.snd := by
  induction m with
  | nil => simp [alGet] at h
  | cons p rest ih =>
    unfold alGet at h
    rw [List.find?_cons] at h
    cases hk : (p.1 == k) with
    | true =>
      rw [hk] at h
      have h2 : p.2 = v := Option.some.inj h
      rw [← h2]
      exact List.mem_map_of_mem Prod.snd (List.mem_cons_self p rest)
    | false =>
      rw [hk] at h
      exact List.mem_cons_of_mem _ (ih h)

theorem refMapEqB_pointwise (a b : RefMap) (h : refMapEqB a b = true)
    (k : Bytes) : alGet a k = alGet b k := by
  unfold refMapEqB at h
  rw [Bool.and_eq_true] at h
  by_cases hka : k ∈ a.map Prod.fst
  · have := List.all_eq_true.mp h.1 k hka
    simpa using this
  · by_cases hkb : k ∈ b.map Prod.fst
    · have := List.all_eq_true.mp h.2 k hkb
      simpa using this
    · rw [alGet_eq_none_of_not_mem a k hka,
        alGet_eq_none_of_not_mem b k hkb]

theorem rpHeadStep_id (caps : List Bytes) (old new : RefMap)
    (hEq : ∀ k, alGet old k = alGet new k)
    (acc : List Pkt × List Bytes × Bool) (r : Bytes) :
    rpHeadStep caps old new
      ((old.map Prod.snd).filter (fun x => !(x == ZERO_SHA))) acc r = acc := by
  unfold rpHeadStep
  rw [← hEq r]
  simp only [ne_eq, not_true_eq_false, if_neg (by simp : ¬ False)]
  by_cases hz : (alGet old r).getD ZERO_SHA = ZERO_SHA
  · simp [hz]
  · have hsome : alGet old r = some ((alGet old r).getD ZERO_SHA) := by
      cases hg : alGet old r with
      | none => rw [hg] at hz; simp at hz
      | some v => rfl
    have hmem : (alGet old r).getD ZERO_SHA ∈
        (old.map Prod.snd).filter (fun x => !(x == ZERO_SHA)) := by
      rw [List.mem_filter]
      refine ⟨alGet_mem_values old r _ hsome, by simpa using hz⟩
    have hcon : ((old.map Prod.snd).filter
        (fun x => !(x == ZERO_SHA))).contains
        ((alGet old r).getD ZERO_SHA) = true := by
      rw [contains_eq_decide_mem, decide_eq_true_eq]
      exact hmem
    rw [hcon]
    simp

theorem handleReceivePackHead_unchanged (caps : List Bytes)
    (old new : RefMap) (hEq : ∀ k, alGet old k = alGet new k) :
    handleReceivePackHead caps old new =
      ⟨[none], (old.map Prod.snd).filter (fun x => !(x == ZERO_SHA)), []⟩ := by
  unfold handleReceivePackHead
  have hfold : ∀ (keys : List Bytes),
      keys.foldl (rpHeadStep caps old new
        ((old.map Prod.snd).filter (fun x => !(x == ZERO_SHA))))
        ([], [], false) = ([], [], false) := by
    intro keys
    induction keys with
    | nil => rfl
    | cons k rest ih =>
      rw [List.foldl_cons, rpHeadStep_id caps old new hEq _ k, ih]
  simp only [hfold]
  rfl

/-- C9: when the determined new ref mapping equals (as a dict) the
advertised old mapping, `send_pack` — on both the traditional and the HTTP
transport — returns the new refs without ever invoking the pack-content
generator (`packObjects = none`): only the head's final flush is written
and no pack is produced. -/
theorem c9_no_pack_when_refs_unchanged :
    (∀ (stream : List Pkt) (raw : Bytes) (dw : RefMap → Option RefMap)
      (gen : List Bytes → List Bytes → List Nat) (rr : ReadRefsOut)
      (sc : List Bytes) (newRefs : RefMap),
      readRefs stream = .ok rr → rr.caps = some sc →
      dw rr.refs = some newRefs → refMapEqB rr.refs newRefs = true →
      sendPackTraditional stream raw dw gen =
        .ok { negotiated := if sc.contains (ascii "report-status")
                then SEND_CAPABILITIES
                else SEND_CAPABILITIES.erase (ascii "report-status"),
              written := [none], packObjects := none, packWritten := false,
              progressData := [], refs := newRefs }) ∧
    (∀ (code : Nat) (advStream : List Pkt) (dw : RefMap → Option RefMap)
      (gen : List Bytes → List Bytes → List Nat) (respCode : Nat)
      (contentTypeOk : Bool) (respStream : List Pkt) (respRaw : Bytes)
      (rr : ReadRefsOut) (newRefs : RefMap),
      discoverReferences (ascii "git-receive-pack") code false advStream
        = .ok rr →
      dw rr.refs = some newRefs → refMapEqB rr.refs newRefs = true →
      httpSendPack code false advStream dw gen respCode contentTypeOk
        respStream respRaw =
        .ok { negotiated := SEND_CAPABILITIES, written := [none],
              packObjects := none, packWritten := false,
              progressData := [], refs := newRefs }) := by
  constructor
  · intro stream raw dw gen rr sc newRefs hrr hc hdw heq
    unfold sendPackTraditional
    rw [hrr, exc_bind_ok, hc]
    dsimp only
    rw [hdw]
    dsimp only
    rw [handleReceivePackHead_unchanged _ _ _
      (refMapEqB_pointwise _ _ heq)]
    rw [if_pos ⟨rfl, heq⟩]
  · intro code advStream dw gen respCode contentTypeOk respStream respRaw
      rr newRefs hrr hdw heq
    unfold httpSendPack
    rw [hrr, exc_bind_ok]
    dsimp only
    rw [hdw]
    dsimp only
    rw [if_neg (by simp)]
    rw [handleReceivePackHead_unchanged _ _ _
      (refMapEqB_pointwise _ _ heq)]
    rw [if_pos ⟨rfl, heq⟩]

/-- Witness for C9 at a concrete advertisement with identical new refs. -/
theorem c9_no_pack_when_refs_unchanged_witness :
    sendPackTraditional tradAdvRS [] (fun r => some r) (fun _ _ => [1]) =
      .ok { negotiated := SEND_CAPABILITIES, written := [none],
            packObjects := none, packWritten := false, progressData := [],
            refs := [(ascii "refs/heads/master",
              ascii "1111111111111111111111111111111111111111")] } ∧
    httpSendPack 200 false httpAdvNoRS (fun r => some r) (fun _ _ => [1])
        200 true [] [] =
      .ok { negotiated := SEND_CAPABILITIES, written := [none],
            packObjects := none, packWritten := false, progressData := [],
            refs := [(ascii "refs/heads/master",
              ascii "1111111111111111111111111111111111111111")] } :=
  ⟨c9_no_pack_when_refs_unchanged.1 tradAdvRS [] (fun r => some r)
      (fun _ _ => [1]) _ _ _ rfl rfl rfl rfl,
   c9_no_pack_when_refs_unchanged.2 200 httpAdvNoRS (fun r => some r)
      (fun _ _ => [1]) 200 true [] [] _ _ rfl rfl rfl⟩

theorem headLoop_count (canRead : Nat → Bool) (haves : List Bytes) :
    ∀ (stream : List Pkt) (k : Nat) (w : List Pkt) (acks sent : List Bytes)
      (out : HeadOut),
      headLoop canRead haves stream k w acks sent = .ok out →
      k ≤ out.crCalls ∧
      stream.length =
        ((List.range' k (out.crCalls - k)).countP canRead) +
          out.rest.length := by
  induction haves with
  | nil =>
    intro stream k w acks sent out h
    rw [headLoop] at h
    cases h
    simp
  | cons hd tl ih =>
    intro stream k w acks sent out h
    rw [headLoop.eq_def] at h
    dsimp only at h
    by_cases hcr : canRead k = true
    · rw [if_pos hcr] at h
      match stream with
      | [] => cases h
      | none :: rest => cases h
      | some pkt :: rest =>
        dsimp only at h
        by_cases hack :
            ((splitSp (rstripNl pkt)).headD [] == ascii "ACK") = true
        · rw [if_pos hack] at h
          cases hp1 : (splitSp (rstripNl pkt))[1]? with
          | none => rw [hp1] at h; cases h
          | some id2 =>
            rw [hp1] at h
            dsimp only at h
            cases hp2 : (splitSp (rstripNl pkt))[2]? with
            | none => rw [hp2] at h; cases h
            | some st =>
              rw [hp2] at h
              dsimp only at h
              by_cases hst :
                  (st == ascii "continue" || st == ascii "common") = true
              · rw [if_pos hst] at h
                obtain ⟨h1, h2⟩ := ih rest (k + 1) _ _ _ out h
                refine ⟨by omega, ?_⟩
                rw [show out.crCalls - k = (out.crCalls - (k + 1)) + 1
                  from by omega]
                rw [List.range'_succ, List.countP_cons]
                simp only [hcr, if_true, List.length_cons]
                omega
              · rw [if_neg hst] at h
                by_cases hrd : (st == ascii "ready") = true
                · rw [if_pos hrd] at h
                  cases h
                  refine ⟨Nat.le_succ k, ?_⟩
                  rw [show k + 1 - k = 1 from by omega]
                  rw [List.range'_succ, List.countP_cons]
                  simp [hcr]
                  omega
                · rw [if_neg hrd] at h
                  cases h
        · rw [if_neg hack] at h
          obtain ⟨h1, h2⟩ := ih rest (k + 1) _ _ _ out h
          refine ⟨by omega, ?_⟩
          rw [show out.crCalls - k = (out.crCalls - (k + 1)) + 1
            from by omega]
          rw [List.range'_succ, List.countP_cons]
          simp only [hcr, if_true, List.length_cons]
          omega
    · rw [if_neg hcr] at h
      obtain ⟨h1, h2⟩ := ih stream (k + 1) _ _ _ out h
      refine ⟨by omega, ?_⟩
      rw [show out.crCalls - k = (out.crCalls - (k + 1)) + 1 from by omega]
      rw [List.range'_succ, List.countP_cons]
      simp only [hcr, if_false, Nat.add_zero]
      exact h2

/-- C6: in the have loop of `_handle_upload_pack_head`, one response line
is consumed if and only if `can_read()` answered true: on success the
number of stream lines consumed equals the number of true `can_read`
answers; after a have is written, a false `can_read` reads nothing, an
`ACK <id> <status>` line with status `continue` or `common` acks the id
and continues the loop, status `ready` acks the id, stops sending further
haves and writes `done`, and any other status is a fatal assertion
error. -/
theorem c6_head_ack_discipline (canRead : Nat → Bool) :
    (∀ (capabilities wants haves : List Bytes) (stream : List Pkt)
       (out : HeadOut),
       handleUploadPackHead canRead capabilities wants haves stream
         = .ok out →
       stream.length =
         ((List.range' 0 out.crCalls).countP canRead) + out.rest.length) ∧
    (∀ (h : Bytes) (hs : List Bytes) (stream : List Pkt) (k : Nat)
       (w : List Pkt) (acks sent : List Bytes),
       canRead k = false →
       headLoop canRead (h :: hs) stream k w acks sent =
         headLoop canRead hs stream (k + 1)
           (w ++ [some (ascii "have " ++ h ++ [10])]) acks (sent ++ [h])) ∧
    (∀ (h : Bytes) (hs : List Bytes) (pkt : Bytes) (rest : List Pkt)
       (k : Nat) (w : List Pkt) (acks sent : List Bytes) (id2 st : Bytes),
       canRead k = true →
       splitSp (rstripNl pkt) = [ascii "ACK", id2, st] →
       (st = ascii "continue" ∨ st = ascii "common") →
       headLoop canRead (h :: hs) (some pkt :: rest) k w acks sent =
         headLoop canRead hs rest (k + 1)
           (w ++ [some (ascii "have " ++ h ++ [10])]) (acks ++ [id2])
           (sent ++ [h])) ∧
    (∀ (h : Bytes) (hs : List Bytes) (pkt : Bytes) (rest : List Pkt)
       (k : Nat) (w : List Pkt) (acks sent : List Bytes) (id2 : Bytes),
       canRead k = true →
       splitSp (rstripNl pkt) = [ascii "ACK", id2, ascii "ready"] →
       headLoop canRead (h :: hs) (some pkt :: rest) k w acks sent =
         .ok ⟨w ++ [some (ascii "have " ++ h ++ [10]),
                    some (ascii "done" ++ [10])],
              acks ++ [id2], k + 1, true, sent ++ [h], rest⟩) ∧
    (∀ (h : Bytes) (hs : List Bytes) (pkt : Bytes) (rest : List Pkt)
       (k : Nat) (w : List Pkt) (acks sent : List Bytes) (id2 st : Bytes),
       canRead k = true →
       splitSp (rstripNl pkt) = [ascii "ACK", id2, st] →
       st ≠ ascii "continue" → st ≠ ascii "common" → st ≠ ascii "ready" →
       headLoop canRead (h :: hs) (some pkt :: rest) k w acks sent =
         .error (.assertionError st)) := by
  refine ⟨?_, ?_, ?_, ?_, ?_⟩
  · intro capabilities wants haves stream out h
    cases wants with
    | nil => rw [handleUploadPackHead] at h; cases h
    | cons w0 ws =>
      rw [handleUploadPackHead] at h
      have := (headLoop_count canRead haves stream 0 _ [] [] out h).2
      simpa using this
  · intro h hs stream k w acks sent hcr
    rw [headLoop.eq_def]
    dsimp only
    rw [if_neg (by simp [hcr])]
  · intro h hs pkt rest k w acks sent id2 st hcr hsp hst
    rw [headLoop.eq_def]
    dsimp only
    rw [if_pos hcr, hsp]
    have hste : (st == ascii "continue" || st == ascii "common") = true := by
      cases hst with
      | inl h1 => simp [h1]
      | inr h1 => simp [h1]
    simp only [List.headD_cons, beq_self_eq_true, if_true,
      List.getElem?_cons_succ, List.getElem?_cons_zero, hste]
  · intro h hs pkt rest k w acks sent id2 hcr hsp
    rw [headLoop.eq_def]
    dsimp only
    rw [if_pos hcr, hsp]
    simp only [List.headD_cons, beq_self_eq_true, if_true,
      List.getElem?_cons_succ, List.getElem?_cons_zero]
    simp
    intro hcon
    exact absurd hcon (by decide)
  · intro h hs pkt rest k w acks sent id2 st hcr hsp h1 h2 h3
    rw [headLoop.eq_def]
    dsimp only
    rw [if_pos hcr, hsp]
    simp only [List.headD_cons, beq_self_eq_true, if_true,
      List.getElem?_cons_succ, List.getElem?_cons_zero]
    rw [if_neg (by simp [h1, h2]), if_neg (by simp [h3])]

/-- Witness for C6 at concrete inputs: a run reading on the first
`can_read` only, a skipped read, a `continue` ack, a `ready` stop and a
bad-status assertion error. -/
theorem c6_head_ack_discipline_witness :
    (([some (ascii "ACK h1 continue" ++ [10]), some (ascii "junk")] :
        List Pkt).length =
      ((List.range' 0 2).countP (fun k => k == 0)) +
        ([some (ascii "junk")] : List Pkt).length) ∧
    (headLoop (fun k => k == 0) [ascii "x"] [] 5 [] [] [] =
      headLoop (fun k => k == 0) [] [] 6
        [some (ascii "have " ++ ascii "x" ++ [10])] [] [ascii "x"]) ∧
    (headLoop (fun k => k == 0) [ascii "x"]
        [some (ascii "ACK aa continue" ++ [10])] 0 [] [] [] =
      headLoop (fun k => k == 0) [] [] 1
        [some (ascii "have " ++ ascii "x" ++ [10])] [ascii "aa"]
        [ascii "x"]) ∧
    (headLoop (fun k => k == 0) [ascii "x"]
        [some (ascii "ACK aa ready" ++ [10])] 0 [] [] [] =
      .ok ⟨[some (ascii "have " ++ ascii "x" ++ [10]),
            some (ascii "done" ++ [10])],
           [ascii "aa"], 1, true, [ascii "x"], []⟩) ∧
    (headLoop (fun k => k == 0) [ascii "x"]
        [some (ascii "ACK aa weird" ++ [10])] 0 [] [] [] =
      .error (.assertionError (ascii "weird"))) :=
  ⟨(c6_head_ack_discipline (fun k => k == 0)).1 [ascii "multi_ack"]
      [ascii "aa"] [ascii "h1", ascii "h2"] _
      ⟨[some (ascii "want " ++ ascii "aa" ++ [32] ++
          joinSp [ascii "multi_ack"] ++ [10]), none,
        some (ascii "have " ++ ascii "h1" ++ [10]),
        some (ascii "have " ++ ascii "h2" ++ [10]),
        some (ascii "done" ++ [10])],
       [ascii "h1"], 2, false, [ascii "h1", ascii "h2"],
       [some (ascii "junk")]⟩ rfl,
   (c6_head_ack_discipline (fun k => k == 0)).2.1 (ascii "x") [] [] 5
      [] [] [] rfl,
   (c6_head_ack_discipline (fun k => k == 0)).2.2.1 (ascii "x") [] _ []
      0 [] [] [] (ascii "aa") (ascii "continue") rfl rfl (Or.inl rfl),
   (c6_head_ack_discipline (fun k => k == 0)).2.2.2.1 (ascii "x") [] _ []
      0 [] [] [] (ascii "aa") rfl rfl,
   (c6_head_ack_discipline (fun k => k == 0)).2.2.2.2 (ascii "x") [] _ []
      0 [] [] [] (ascii "aa") (ascii "weird") rfl rfl (by decide)
      (by decide) (by decide)⟩

/-! ### C2 -/

theorem readBytes_at (data xs t : Bytes) (pos n : Nat)
    (hd : data.drop pos = xs ++ t) (hl : xs.length = n) :
    readBytes data pos n = xs ∧ data.drop (pos + n) = t := by
  constructor
  · unfold readBytes
    rw [hd, ← hl, List.take_left]
  · rw [← List.drop_drop, hd, ← hl, List.drop_left]

theorem unpack32_pack32v (n : Nat) (h : n < 4294967296) :
    unpack32 (n / 16777216 % 256) (n / 65536 % 256) (n / 256 % 256)
      (n % 256) = n := by
  unfold unpack32
  omega

theorem readCacheTime_at (data : Bytes) (pos : Nat) (a b : Nat) (t : Bytes)
    (ha : a < 4294967296) (hb : b < 4294967296)
    (hd : data.drop pos = pack32v a ++ (pack32v b ++ t)) :
    readCacheTime data pos = .ok ((a, b), pos + 8) ∧
      data.drop (pos + 8) = t := by
  obtain ⟨h1, h2⟩ := readBytes_at data (pack32v a ++ pack32v b) t pos 8
    (by rw [hd, List.append_assoc]) rfl
  refine ⟨?_, h2⟩
  unfold readCacheTime
  rw [h1]
  show Except.ok ((unpack32 (a / 16777216 % 256) (a / 65536 % 256)
      (a / 256 % 256) (a % 256), unpack32 (b / 16777216 % 256)
      (b / 65536 % 256) (b / 256 % 256) (b % 256)), pos + 8) = _
  rw [unpack32_pack32v a ha, unpack32_pack32v b hb]

theorem readU32_at (data : Bytes) (pos a : Nat) (t : Bytes)
    (ha : a < 4294967296)
    (hd : data.drop pos = pack32v a ++ t) :
    readU32 data pos = .ok (a, pos + 4) ∧ data.drop (pos + 4) = t := by
  obtain ⟨h1, h2⟩ := readBytes_at data (pack32v a) t pos 4 hd rfl
  refine ⟨?_, h2⟩
  unfold readU32
  rw [h1]
  show Except.ok (unpack32 (a / 16777216 % 256) (a / 65536 % 256)
      (a / 256 % 256) (a % 256), pos + 4) = _
  rw [unpack32_pack32v a ha]

theorem readU16_at (data : Bytes) (pos a : Nat) (t : Bytes)
    (ha : a < 65536)
    (hd : data.drop pos = pack16v a ++ t) :
    readU16 data pos = .ok (a, pos + 2) ∧ data.drop (pos + 2) = t := by
  obtain ⟨h1, h2⟩ := readBytes_at data (pack16v a) t pos 2 hd rfl
  refine ⟨?_, h2⟩
  unfold readU16
  rw [h1]
  show Except.ok (a / 256 % 256 * 256 + a % 256, pos + 2) = _
  have hv : a / 256 % 256 * 256 + a % 256 = a := by omega
  rw [hv]

theorem pack20s_eq_of_20 (s : Bytes) (h : s.length = 20) :
    pack20s s = s := by
  unfold pack20s
  rw [← h, List.take_length]
  simp

theorem utf8Encode_ascii (s : List Nat) (h : ∀ c ∈ s, c < 128) :
    utf8Encode s = s := by
  induction s with
  | nil => rfl
  | cons c cs ih =>
    have hc : c < 128 := h c (List.mem_cons_self c cs)
    have hrest := ih (fun x hx => h x (List.mem_cons_of_mem c hx))
    simp only [utf8Encode, List.map_cons, List.flatten_cons] at hrest ⊢
    rw [utf8EncodeChar, if_pos hc, hrest]
    rfl

theorem utf8Step_lt (b : Nat) (rest : Bytes) (h : b < 128) :
    utf8Step b rest = some (b, rest) := by
  unfold utf8Step
  rw [if_pos h]

theorem utf8Decode_ascii (s : List Nat) (h : ∀ c ∈ s, c < 128) :
    utf8Decode s = some s := by
  induction s with
  | nil => rfl
  | cons c cs ih =>
    have hc : c < 128 := h c (List.mem_cons_self c cs)
    show utf8DecodeLoop (cs.length + 1) (c :: cs) = some (c :: cs)
    rw [utf8DecodeLoop, utf8Step_lt c cs hc]
    dsimp only
    have hrest : utf8DecodeLoop cs.length cs = some cs :=
      ih (fun x hx => h x (List.mem_cons_of_mem c hx))
    rw [hrest]
    rfl

theorem storedFlags_mod (e : IndexEntry) (hn : e.1.length ≤ 4095) :
    storedFlags e % 4096 = e.1.length ∧
    storedFlags e - storedFlags e % 4096 =
      e.2.flags - e.2.flags % 4096 := by
  unfold storedFlags
  rw [flags_lor_eq_add _ _ hn]
  omega

theorem recordBytes_length (e : IndexEntry) (hsha : e.2.sha.length = 20) :
    (recordBytes e).length =
      62 + (utf8Encode e.1).length +
        (8 - (62 + (utf8Encode e.1).length) % 8) := by
  obtain ⟨front, hsplit, hlen⟩ := recordBytes_split e hsha
  rw [hsplit]
  simp [hlen]

theorem storedFlags_sub (e : IndexEntry) (hn : e.1.length ≤ 4095) :
    storedFlags e - e.1.length = e.2.flags - e.2.flags % 4096 := by
  unfold storedFlags
  rw [flags_lor_eq_add _ _ hn]
  omega

theorem readCacheEntry_on_record (pre rest : Bytes) (e : IndexEntry)
    (h : entryInRange e) (hn : e.1.length ≤ 4095)
    (hasc : ∀ c ∈ e.1, c < 128) :
    readCacheEntry (pre ++ (recordBytes e ++ rest)) pre.length =
      .ok ((e.1, maskFlags e.2), pre.length + (recordBytes e).length) := by
  obtain ⟨h1, h2, h3, h4, h5, h6, h7, h8, h9, h10, h11, h12⟩ := h
  have henc : utf8Encode e.1 = e.1 := utf8Encode_ascii e.1 hasc
  have hd0 : (pre ++ (recordBytes e ++ rest)).drop pre.length =
      pack32v e.2.ctime.1 ++ (pack32v e.2.ctime.2 ++ (pack32v e.2.mtime.1 ++
        (pack32v e.2.mtime.2 ++ (pack32v e.2.dev ++ (pack32v e.2.ino ++
        (pack32v e.2.mode ++ (pack32v e.2.uid ++ (pack32v e.2.gid ++
        (pack32v e.2.size ++ (pack20s e.2.sha ++ (pack16v (storedFlags e) ++
        (e.1 ++ (List.replicate (8 - (62 + e.1.length) % 8) 0
          ++ rest))))))))))))) := by
    rw [List.drop_left]
    simp [recordBytes, henc, List.append_assoc]
  obtain ⟨hct, hd1⟩ :=
    readCacheTime_at _ pre.length e.2.ctime.1 e.2.ctime.2 _ h1 h2 hd0
  obtain ⟨hmt, hd2⟩ := readCacheTime_at _ _ e.2.mtime.1 e.2.mtime.2 _ h3 h4 hd1
  obtain ⟨hdev, hd3⟩ := readU32_at _ _ e.2.dev _ h5 hd2
  obtain ⟨hino, hd4⟩ := readU32_at _ _ e.2.ino _ h6 hd3
  obtain ⟨hmode, hd5⟩ := readU32_at _ _ e.2.mode _ h7 hd4
  obtain ⟨huid, hd6⟩ := readU32_at _ _ e.2.uid _ h8 hd5
  obtain ⟨hgid, hd7⟩ := readU32_at _ _ e.2.gid _ h9 hd6
  obtain ⟨hsize, hd8⟩ := readU32_at _ _ e.2.size _ h10 hd7
  obtain ⟨hsha, hd9⟩ := readBytes_at _ (pack20s e.2.sha) _ _ 20 hd8
    (pack20s_length_of_20 e.2.sha h12)
  obtain ⟨hfl, hd10⟩ :=
    readU16_at _ _ (storedFlags e) _ (storedFlags_lt e h11 hn) hd9
  obtain ⟨hname, hd11⟩ := readBytes_at _ e.1 _ _ e.1.length hd10 rfl
  obtain ⟨hpad, hd12⟩ := readBytes_at _
    (List.replicate (8 - (62 + e.1.length) % 8) 0) rest
    (pre.length + 8 + 8 + 4 + 4 + 4 + 4 + 4 + 4 + 20 + 2 + e.1.length)
    (pre.length + alignDown8
        (pre.length + 8 + 8 + 4 + 4 + 4 + 4 + 4 + 4 + 20 + 2 + e.1.length
          - pre.length + 8)
      - (pre.length + 8 + 8 + 4 + 4 + 4 + 4 + 4 + 4 + 20 + 2 + e.1.length))
    hd11
    (by rw [List.length_replicate]; unfold alignDown8; omega)
  unfold readCacheEntry
  simp only [hct, exc_bind_ok, hmt, hdev, hino, hmode, huid, hgid, hsize,
    hsha, pack20s_length_of_20 e.2.sha h12, ne_eq, hfl,
    (storedFlags_mod e hn).1, hname, utf8Decode_ascii e.1 hasc, hpad,
    List.length_replicate, pack20s_eq_of_20 e.2.sha h12,
    storedFlags_sub e hn, maskFlags, Prod.mk.eta,
    recordBytes_length e h12, henc]
  rw [if_neg (by simp [h12])]
  simp only [Except.ok.injEq, Prod.mk.injEq]
  exact ⟨trivial, by omega⟩

theorem readIndexLoop_on (data : Bytes) (entries : List IndexEntry) :
    ∀ (pre rest : Bytes),
      data = pre ++ (recsBytes entries ++ rest) →
      (∀ e ∈ entries, entryInRange e ∧ e.1.length ≤ 4095 ∧
        ∀ c ∈ e.1, c < 128) →
      readIndexLoop data entries.length pre.length =
        .ok (entries.map (fun e => (e.1, maskFlags e.2)),
             pre.length + (recsBytes entries).length) := by
  induction entries with
  | nil =>
    intro pre rest hdata hall
    simp [readIndexLoop, recsBytes]
  | cons e es ih =>
    intro pre rest hdata hall
    have he := hall e (List.mem_cons_self e es)
    have hdata' : data = pre ++ (recordBytes e ++ (recsBytes es ++ rest)) := by
      rw [hdata]
      simp [recsBytes, List.append_assoc]
    have hce : readCacheEntry data pre.length =
        .ok ((e.1, maskFlags e.2), pre.length + (recordBytes e).length) := by
      rw [hdata']
      exact readCacheEntry_on_record pre (recsBytes es ++ rest) e he.1
        he.2.1 he.2.2
    show readIndexLoop data (es.length + 1) pre.length = _
    rw [readIndexLoop, hce, exc_bind_ok]
    dsimp only
    have hlen : pre.length + (recordBytes e).length =
        (pre ++ recordBytes e).length := (List.length_append pre _).symm
    rw [hlen, ih (pre ++ recordBytes e) rest
      (by rw [hdata']; simp [List.append_assoc])
      (fun x hx => hall x (List.mem_cons_of_mem e hx)), exc_bind_ok]
    dsimp only
    simp only [Except.ok.injEq, Prod.mk.injEq, List.map_cons, recsBytes,
      List.length_append, List.map_cons, List.flatten_cons, true_and]
    omega

theorem writeIndexFold_eq (entries : List IndexEntry) :
    ∀ (pre : Bytes),
      (∀ e ∈ entries, entryInRange e ∧ e.1.length ≤ 4095) →
      writeIndexFold entries pre = .ok (pre ++ recsBytes entries) := by
  induction entries with
  | nil =>
    intro pre _
    simp [writeIndexFold, recsBytes]
  | cons e es ih =>
    intro pre hall
    have he := hall e (List.mem_cons_self e es)
    rw [writeIndexFold, writeCacheEntry_eq pre e he.1 he.2, exc_bind_ok]
    rw [ih (pre ++ recordBytes e)
      (fun x hx => hall x (List.mem_cons_of_mem e hx))]
    simp [recsBytes, List.append_assoc]

theorem writeIndex_eq (entries : List IndexEntry)
    (hlen : entries.length < 4294967296)
    (hall : ∀ e ∈ entries, entryInRange e ∧ e.1.length ≤ 4095) :
    writeIndex entries = .ok (ascii "DIRC" ++ pack32v 2 ++
      pack32v entries.length ++ recsBytes entries) := by
  unfold writeIndex
  rw [pack32_eq_ok 2 (by omega), exc_bind_ok,
    pack32_eq_ok entries.length hlen, exc_bind_ok]
  rw [writeIndexFold_eq entries _ hall]

theorem readIndex_on_written (entries : List IndexEntry)
    (hlen : entries.length < 4294967296)
    (hall : ∀ e ∈ entries, entryInRange e ∧ e.1.length ≤ 4095 ∧
      ∀ c ∈ e.1, c < 128) :
    readIndex (ascii "DIRC" ++ pack32v 2 ++ pack32v entries.length ++
        recsBytes entries) =
      .ok (entries.map (fun e => (e.1, maskFlags e.2)),
           12 + (recsBytes entries).length) := by
  have hd0 : (ascii "DIRC" ++ pack32v 2 ++ pack32v entries.length ++
      recsBytes entries).drop 0 =
      ascii "DIRC" ++ ((pack32v 2 ++ pack32v entries.length) ++
        recsBytes entries) := by
    simp [List.append_assoc]
  obtain ⟨hh, hd4⟩ := readBytes_at _ (ascii "DIRC") _ 0 4 hd0 rfl
  simp only [Nat.zero_add] at hd4
  obtain ⟨hv, _⟩ := readBytes_at _ (pack32v 2 ++ pack32v entries.length)
    _ 4 8 hd4 rfl
  have hpre : (ascii "DIRC" ++ pack32v 2 ++
      pack32v entries.length).length = 12 := rfl
  have hloop := readIndexLoop_on
    (ascii "DIRC" ++ pack32v 2 ++ pack32v entries.length ++
      recsBytes entries) entries
    (ascii "DIRC" ++ pack32v 2 ++ pack32v entries.length) []
    (by simp) hall
  rw [hpre] at hloop
  unfold readIndex
  rw [hh, if_neg (by simp), hv]
  simp only [pack32v, List.cons_append, List.nil_append]
  rw [if_neg (by decide)]
  have hcnt := unpack32_pack32v entries.length hlen
  simp only [pack32v] at hloop
  rw [hcnt, hloop]

theorem foldl_alSet_eq_append {α : Type} (l : List (Bytes × α)) :
    ∀ (acc : List (Bytes × α)),
      (l.map Prod.fst).Nodup →
      (∀ k ∈ l.map Prod.fst, k ∉ acc.map Prod.fst) →
      l.foldl (fun m p => alSet m p.1 p.2) acc = acc ++ l := by
  induction l with
  | nil =>
    intro acc _ _
    simp
  | cons p ps ih =>
    intro acc hnd hdis
    obtain ⟨k, v⟩ := p
    simp only [List.map_cons, List.nodup_cons] at hnd
    simp only [List.foldl_cons]
    rw [alSet_append_of_not_mem acc k v (hdis k (by simp))]
    have hdis' : ∀ k' ∈ ps.map Prod.fst,
        k' ∉ (acc ++ [(k, v)]).map Prod.fst := by
      intro k' hk'
      simp only [List.map_append, List.map_cons, List.map_nil,
        List.mem_append, List.mem_singleton, not_or]
      refine ⟨hdis k' (by simp [hk']), ?_⟩
      intro he
      exact hnd.1 (he ▸ hk')
    rw [ih (acc ++ [(k, v)]) hnd.2 hdis']
    simp

/-- C2 counterexample: an entry with flags 5 comes back from the
write/read round trip with flags 0 (the low 12 flag bits are overwritten
with the path length on write and masked away on read), and a one-character
non-ASCII path (U+00E9, two UTF-8 bytes) makes the round trip fail
outright with a UnicodeDecodeError, because write_cache_entry stores the
path's character count in the flags but emits its UTF-8 bytes. -/
theorem c2_counterexample :
    indexRoundTrip [c2entryFlags] =
      .ok [(c2entryFlags.1, maskFlags c2entryFlags.2)] ∧
    (maskFlags c2entryFlags.2).flags = 0 ∧
    c2entryFlags.2.flags = 5 ∧
    maskFlags c2entryFlags.2 ≠ c2entryFlags.2 ∧
    indexRoundTrip [c2entryNonAscii] = .error .unicodeDecodeError := by
  refine ⟨rfl, rfl, rfl, by decide, rfl⟩

/-- C2 amended: for entries with in-range fields, distinct ASCII paths of
1..4095 bytes, writing with `write_index` and re-reading with
`read_index_dict` reproduces every entry and field exactly except the
flags, whose low 12 bits come back zeroed. -/
theorem c2_amended_roundtrip_masks_flags (entries : List IndexEntry)
    (hcnt : entries.length < 4294967296)
    (hall : ∀ e ∈ entries, entryInRange e ∧
      1 ≤ e.1.length ∧ e.1.length ≤ 4095 ∧ ∀ c ∈ e.1, c < 128)
    (hnd : (entries.map Prod.fst).Nodup) :
    indexRoundTrip entries =
      .ok (entries.map (fun e => (e.1, maskFlags e.2))) := by
  unfold indexRoundTrip
  rw [writeIndex_eq entries hcnt
    (fun e he => ⟨(hall e he).1, (hall e he).2.2.1⟩)]
  dsimp only [Except.bind]
  unfold readIndexDict
  rw [readIndex_on_written entries hcnt
    (fun e he => ⟨(hall e he).1, (hall e he).2.2.1, (hall e he).2.2.2⟩),
    exc_bind_ok]
  dsimp only
  have hnd' : (((entries.map fun e => (e.1, maskFlags e.2)).map
      Prod.fst)).Nodup := by
    simpa [List.map_map, Function.comp] using hnd
  rw [foldl_alSet_eq_append (entries.map fun e => (e.1, maskFlags e.2)) []
    hnd' (by simp)]
  simp

/-- Witness for the amended C2 at a concrete entry with flags 5. -/
theorem c2_amended_roundtrip_masks_flags_witness :
    indexRoundTrip [c2entryFlags] =
      .ok [(c2entryFlags.1, maskFlags c2entryFlags.2)] :=
  c2_amended_roundtrip_masks_flags [c2entryFlags] (by decide) (by decide)
    (by decide)
